import Mathlib

/-!
Shallow embedding of the DID catalog core (`lib/rucio/core/did.py`) and of the
helpers it relies on.  Database tables are lists of typed rows, a call is a
function from a `DBState` to `Except RucioErr DBState` (an error models the
transaction rollback at the call boundary), and SQL constructs (outer joins,
aggregates with NULL collapse, recursive CTEs) are translated explicitly.
Machine timestamps are modelled as integers, SQL NULL as `Option`.
-/

namespace Rucio

/-- DID types used by the catalog core (`DIDType` enum). -/
inductive DIDType where
  | FILE
  | DATASET
  | CONTAINER
deriving DecidableEq, Repr

/-- File availability (`DIDAvailability` enum). -/
inductive DIDAvailability where
  | AVAILABLE
  | LOST
  | DELETED
deriving DecidableEq, Repr

/-- Rule re-evaluation action for updated-DID markers (`DIDReEvaluation`). -/
inductive ReEvaluation where
  | ATTACH
  | DETACH
deriving DecidableEq, Repr

/-- Bad-replica states touched by `delete_dids` (`BadFilesStatus`). -/
inductive BadFilesStatus where
  | BAD
  | DELETED
deriving DecidableEq, Repr

/-- The typed errors raised by the embedded operations (`rucio.common.exception`).
`MultipleRowsFound` models SQLAlchemy's `MultipleResultsFound` escaping a
`scalar_one()` call. -/
inductive RucioErr where
  | DataIdentifierNotFound
  | UnsupportedOperation
  | FileConsistencyMismatch
  | UnsupportedStatus
  | DatabaseException
  | DuplicateContent
  | FileAlreadyExists
  | MultipleRowsFound
  | RucioException
deriving DecidableEq, Repr

/-- A `(scope, name)` key. -/
abbrev SN := String × String

/-- A live DID row (`models.DataIdentifier`), with the columns the embedded
operations read or write.  Timestamps are integers, nullable columns are
`Option`. -/
structure DidRow where
  scope : String
  name : String
  account : String
  did_type : DIDType
  is_open : Bool
  monotonic : Bool
  hidden : Bool
  obsolete : Bool
  complete : Bool
  is_new : Bool
  availability : DIDAvailability
  suppressed : Bool
  bytes : Option Int
  length : Option Int
  events : Option Int
  md5 : Option String
  adler32 : Option String
  guid : Option String
  expired_at : Option Int
  purge_replicas : Bool
  deleted_at : Option Int
  created_at : Option Int
  project : Option String
  datatype : Option String
  run_number : Option Int
  stream_name : Option String
  prod_step : Option String
  version : Option String
  campaign : Option String
  task_id : Option Int
  panda_id : Option Int
  lumiblocknr : Option Int
  provenance : Option String
  phys_group : Option String
  transient : Bool
  accessed_at : Option Int
  closed_at : Option Int
  eol_at : Option Int
  is_archive : Bool
  constituent : Bool
  access_cnt : Option Int
deriving DecidableEq, Repr

/-- An association row (`models.DataIdentifierAssociation`, table `contents`):
a parent-to-child edge with cached child attributes. -/
structure AssocRow where
  scope : String
  name : String
  child_scope : String
  child_name : String
  did_type : DIDType
  child_type : DIDType
  bytes : Option Int
  adler32 : Option String
  md5 : Option String
  guid : Option String
  events : Option Int
  rule_evaluation : Bool
  created_at : Option Int
  updated_at : Option Int
deriving DecidableEq, Repr

/-- A removed-association history row (`models.DataIdentifierAssociationHistory`). -/
structure AssocHistoryRow where
  scope : String
  name : String
  child_scope : String
  child_name : String
  did_type : DIDType
  child_type : DIDType
  bytes : Option Int
  adler32 : Option String
  md5 : Option String
  guid : Option String
  events : Option Int
  rule_evaluation : Bool
  did_created_at : Option Int
  created_at : Option Int
  updated_at : Option Int
  deleted_at : Option Int
deriving DecidableEq, Repr

/-- An archive-constituent row (`models.ConstituentAssociation`). -/
structure ConstituentRow where
  scope : String
  name : String
  child_scope : String
  child_name : String
  bytes : Option Int
  adler32 : Option String
  md5 : Option String
  guid : Option String
  length : Option Int
deriving DecidableEq, Repr

/-- An archived snapshot of a removed DID row (`models.DeletedDataIdentifier`).
It carries exactly the columns copied by `insert_deleted_dids`; note that
`access_cnt` is selected there but never copied into the snapshot, so the
snapshot has no such field. -/
structure DeletedDidRow where
  scope : String
  name : String
  account : String
  did_type : DIDType
  is_open : Bool
  monotonic : Bool
  hidden : Bool
  obsolete : Bool
  complete : Bool
  is_new : Bool
  availability : DIDAvailability
  suppressed : Bool
  bytes : Option Int
  length : Option Int
  events : Option Int
  md5 : Option String
  adler32 : Option String
  guid : Option String
  expired_at : Option Int
  purge_replicas : Bool
  deleted_at : Option Int
  project : Option String
  datatype : Option String
  run_number : Option Int
  stream_name : Option String
  prod_step : Option String
  version : Option String
  campaign : Option String
  task_id : Option Int
  panda_id : Option Int
  lumiblocknr : Option Int
  provenance : Option String
  phys_group : Option String
  transient : Bool
  accessed_at : Option Int
  closed_at : Option Int
  eol_at : Option Int
  is_archive : Bool
  constituent : Bool
deriving DecidableEq, Repr

/-- A replication rule row, restricted to the columns read by the DID core
(`models.ReplicationRule`). -/
structure RuleRow where
  id : Nat
  scope : String
  name : String
  locked : Bool
  locks_ok_cnt : Int
  locks_replicating_cnt : Int
  locks_stuck_cnt : Int
deriving DecidableEq, Repr

/-- An updated-DID marker (`models.UpdatedDID`). -/
structure UpdatedDidRow where
  scope : String
  name : String
  rule_evaluation_action : ReEvaluation
deriving DecidableEq, Repr

/-- A dataset lock row, restricted to the columns written by `set_status`
(`models.DatasetLock`). -/
structure DatasetLockRow where
  scope : String
  name : String
  length : Option Int
  bytes : Option Int
deriving DecidableEq, Repr

/-- A bad-replica row (`models.BadReplica`). -/
structure BadReplicaRow where
  scope : String
  name : String
  state : BadFilesStatus
  updated_at : Option Int
deriving DecidableEq, Repr

/-- A file replica row, restricted to the columns touched by `delete_dids`
(`models.RSEFileAssociation`). -/
structure ReplicaRow where
  scope : String
  name : String
  lock_cnt : Int
  tombstone : Option Int
deriving DecidableEq, Repr

/-- A transactional message emitted through `add_message`.  Only the payload
fields actually filled by the embedded operations are carried; the `vo` field
(present only off the default VO) is omitted, i.e. the default VO is modelled. -/
inductive Message where
  | ERASE (account scope name : String)
  | ERASE_CNT (scope name childscope childname childtype : String)
  | DETACH (scope name didtype childscope childname childtype : String)
  | CLOSE (scope name : String) (bytes length events : Int)
  | OPEN (scope name : String)
  | REGISTER_CNT (account scope name childscope childname childtype : String)
deriving DecidableEq, Repr

/-- The catalog state: one list per table, plus the emitted messages. -/
structure DBState where
  dids : List DidRow
  assocs : List AssocRow
  assoc_history : List AssocHistoryRow
  constituents : List ConstituentRow
  deleted_dids : List DeletedDidRow
  rules : List RuleRow
  updated_dids : List UpdatedDidRow
  dataset_locks : List DatasetLockRow
  bad_replicas : List BadReplicaRow
  replicas : List ReplicaRow
  collection_replicas : List SN
  dids_followed : List SN
  did_meta : List SN
  messages : List Message
deriving DecidableEq, Repr

/-- Configuration keys read by the embedded operations (`config_get_bool` /
`config_get_int`). -/
structure Config where
  archive_dids : Bool
  archive_content : Bool
  purge_all_replicas : Bool
  reevaluate_dids_at_close : Bool
  expire_rules_locks_size : Int
deriving DecidableEq, Repr

/-- Python truthiness of a nullable integer column (`if did.length:`):
false on NULL and on 0. -/
def truthyI : Option Int → Bool
  | none => false
  | some v => !(v == 0)

/-- Python truthiness of an optional worker/thread number. -/
def truthyN : Option Nat → Bool
  | none => false
  | some v => !(v == 0)

/-- SQL `SUM` over a nullable integer column: NULL values are ignored and the
sum of no values is NULL. -/
def sqlSum (l : List (Option Int)) : Option Int :=
  match l.filterMap id with
  | [] => none
  | vs => some vs.sum

/-- Python `str(...)` applied to a nullable integer, as used by the
`__add_files_to_dataset` consistency check (`str(None) = "None"`). -/
def pyStrI : Option Int → String
  | none => "None"
  | some v => toString v

/-- Python `str(...)` applied to a nullable string column. -/
def pyStrS : Option String → String
  | none => "None"
  | some s => s

/-- SQLAlchemy `scalar_one()` over the rows matched by a query: exactly one
row, a `NoResultFound`, or a `MultipleResultsFound`. -/
inductive OneResult (α : Type) where
  | noResult
  | one (a : α)
  | many
deriving DecidableEq, Repr

/-- Classify a result list the way `scalar_one()` does. -/
def getOne : List α → OneResult α
  | [] => .noResult
  | [a] => .one a
  | _ => .many

/-- All live DID rows with the given key (`select ... where scope==, name==`). -/
def didsWithKey (st : DBState) (s n : String) : List DidRow :=
  st.dids.filter (fun d => decide (d.scope = s ∧ d.name = n))

/-- Association rows of a given parent (`contents` rows with `scope==, name==`). -/
def assocsOfParent (assocs : List AssocRow) (s n : String) : List AssocRow :=
  assocs.filter (fun a => decide (a.scope = s ∧ a.name = n))

/-- Association rows pointing at a given child. -/
def assocsOfChild (assocs : List AssocRow) (s n : String) : List AssocRow :=
  assocs.filter (fun a => decide (a.child_scope = s ∧ a.child_name = n))

/-- Bounded iteration, used to run recursive traversals to their fixpoint. -/
def iterN (f : α → α) : Nat → α → α
  | 0, a => a
  | k + 1, a => iterN f k (f a)

/-! ## Recursive child resolution (`list_one_did_childs_stmt`, §4.8)

The source expresses the descent as a recursive SQL CTE seeded with the direct
children of the input DID reached through edges whose `did_type` is in the
resolve set, then repeatedly expanded through the same edges; the final select
keeps the distinct `(child_scope, child_name)` pairs whose `child_type` is the
target type.  The embedding iterates the expansion step `assocs.length` times,
which reaches the least fixpoint of the expansion. -/

/-- A row of the recursive CTE of `list_one_did_childs_stmt`. -/
structure CteRow where
  child_scope : String
  child_name : String
  child_type : DIDType
deriving DecidableEq, Repr

/-- The seed rows of the CTE: direct children reached through `did_type ∈
resolveTypes` edges. -/
def cteSeeds (assocs : List AssocRow) (resolveTypes : List DIDType) (s n : String) : List CteRow :=
  (assocs.filter
      (fun a => decide (a.scope = s ∧ a.name = n ∧ a.did_type ∈ resolveTypes))).map
    (fun a => ⟨a.child_scope, a.child_name, a.child_type⟩)

/-- One expansion step of the CTE (the recursive `UNION ALL` arm, deduplicated
as by the final `distinct`). -/
def cteExpand (assocs : List AssocRow) (resolveTypes : List DIDType)
    (acc : List CteRow) : List CteRow :=
  (acc ++ acc.flatMap (fun r => cteSeeds assocs resolveTypes r.child_scope r.child_name)).dedup

/-- The `did_type` values followed during the descent: only containers when
resolving to datasets, containers and datasets when resolving to files. -/
def resolveTypesFor (did_type : DIDType) : List DIDType :=
  if did_type = DIDType.DATASET then [DIDType.CONTAINER]
  else [DIDType.CONTAINER, DIDType.DATASET]

/-- `list_one_did_childs_stmt(scope, name, did_type)`: the distinct recursive
children of the input DID having exactly the requested type. -/
def one_did_childs (assocs : List AssocRow) (s n : String) (did_type : DIDType) : List SN :=
  let resolveTypes := resolveTypesFor did_type
  let fix := iterN (cteExpand assocs resolveTypes) assocs.length (cteSeeds assocs resolveTypes s n)
  ((fix.filter (fun r => decide (r.child_type = did_type))).map
    (fun r => (r.child_scope, r.child_name))).dedup

/-! ## Aggregation (`__resolve_bytes_length_events_did`, §4.8) -/

/-- `__resolve_bytes_length_events_did(did, dynamic_depth)`.  Returns
`(bytes, length, events)`.  The three dynamic branches compute
`(length, bytes, events)` from an aggregate select whose NULL results collapse
to 0; a FILE answers `(bytes or 0, 1, events or 0)`; anything else answers the
stored values with NULL collapsed to 0. -/
def resolve_bytes_length_events (st : DBState) (did : DidRow) (dynamic_depth : DIDType) :
    Int × Int × Int :=
  if (did.did_type = DIDType.DATASET ∧ dynamic_depth = DIDType.FILE) ∨
      (did.did_type = DIDType.CONTAINER ∧
        (dynamic_depth = DIDType.FILE ∨ dynamic_depth = DIDType.DATASET)) then
    let sel : Option Int × Option Int × Option Int :=
      if did.did_type = DIDType.DATASET ∧ dynamic_depth = DIDType.FILE then
        let rows := assocsOfParent st.assocs did.scope did.name
        (some (rows.length : Int), sqlSum (rows.map (·.bytes)), sqlSum (rows.map (·.events)))
      else if did.did_type = DIDType.CONTAINER ∧ dynamic_depth = DIDType.DATASET then
        let childs := one_did_childs st.assocs did.scope did.name DIDType.DATASET
        let joined := childs.flatMap (fun k => didsWithKey st k.1 k.2)
        (sqlSum (joined.map (·.length)), sqlSum (joined.map (·.bytes)),
          sqlSum (joined.map (·.events)))
      else
        let childs := one_did_childs st.assocs did.scope did.name DIDType.DATASET
        let joined := childs.flatMap (fun k => assocsOfParent st.assocs k.1 k.2)
        (some (joined.length : Int), sqlSum (joined.map (·.bytes)),
          sqlSum (joined.map (·.events)))
    let length := sel.1.getD 0
    let bytes_ := sel.2.1.getD 0
    let events := sel.2.2.getD 0
    (bytes_, length, events)
  else if did.did_type = DIDType.FILE then
    (did.bytes.getD 0, 1, did.events.getD 0)
  else
    (did.bytes.getD 0, did.length.getD 0, did.events.getD 0)

/-! ## Recursive parent resolution (`list_all_parent_dids`)

The source walks the association edges upward with a recursive generator.  The
embedding computes the same set of transitive parents by saturating the
one-step parent expansion; `assocs.length` iterations reach the fixpoint
because each productive step adds at least one of the at most `assocs.length`
distinct parent keys. -/

/-- The direct parents of a key: `contents` rows whose child is the key,
projected to `(scope, name)` — the select of `list_all_parent_dids`. -/
def direct_parents (assocs : List AssocRow) (k : SN) : List SN :=
  (assocsOfChild assocs k.1 k.2).map (fun a => (a.scope, a.name))

/-- One saturation step of the recursive parent walk. -/
def ancestorStep (assocs : List AssocRow) (s : Finset SN) : Finset SN :=
  s ∪ s.biUnion (fun k => (direct_parents assocs k).toFinset)

/-- `list_all_parent_dids(scope, name)` as a set: every parent of the input
DID, at any level, obtained by running the recursive walk to its fixpoint. -/
def list_all_parent_dids (assocs : List AssocRow) (k : SN) : Finset SN :=
  iterN (ancestorStep assocs) assocs.length (direct_parents assocs k).toFinset

/-! ## Attach Engine (`attach_dids_to_dids` and its sub-routines, §4.3) -/

/-- A child entry of an attachment (`attachment['dids']` element): the key and
the optionally supplied file attributes. `none` models an absent key. -/
structure FileArg where
  scope : String
  name : String
  bytes : Option Int
  adler32 : Option String
  md5 : Option String
  guid : Option String
  events : Option Int
deriving DecidableEq, Repr

/-- One attachment of a batch: a parent key and its children. -/
structure Attachment where
  scope : String
  name : String
  rse_id : Option String
  dids : List FileArg
deriving DecidableEq, Repr

/-- Python dict lookup `files[(scope, name)]` where the dict was built by
comprehension: the last entry with the key wins. -/
def fileFor (files : List FileArg) (k : SN) : Option FileArg :=
  files.reverse.find? (fun f => decide (f.scope = k.1 ∧ f.name = k.2))

/-- The dict `{(a['scope'], a['name']): a for a in attachment['dids']}`:
first-occurrence key order, last value wins. -/
def pyDict (files : List FileArg) : List FileArg :=
  ((files.map (fun f => (f.scope, f.name))).dedup).filterMap (fileFor files)

/-- Suffix test on the character lists of two strings. -/
def strEndsWith (s t : String) : Bool :=
  (s.data.reverse.take t.data.length) == t.data.reverse

/-- Modelled from the spec: `rucio.common.utils.is_archive` is not part of the
sources; per §4.3 a FILE parent may take children only if its name matches the
archive extension policy (e.g. `.zip`/`.tar*`). -/
def isArchiveName (name : String) : Bool :=
  strEndsWith name ".zip" || strEndsWith name ".tar" || strEndsWith name ".tar.gz" ||
    strEndsWith name ".tgz"

/-- An output row of the outer join of the children temp table against the DID
table (and, for `ignore_duplicate`, against the existing parent/child rows):
the child argument, the matched DID row if any, and whether the duplicate-link
join matched. -/
structure JoinRow where
  file : FileArg
  did : Option DidRow
  dup : Bool
deriving DecidableEq, Repr

/-- The outer-join rows for a batch of children under a fixed parent:  one row
per matched DID row, or a single row with no DID when the child does not
exist.  `dupOf` decides the `ignore_duplicate` outer join. -/
def joinRows (st : DBState) (children : List FileArg) (dupOf : SN → Bool) : List JoinRow :=
  children.flatMap (fun f =>
    let dup := dupOf (f.scope, f.name)
    match didsWithKey st f.scope f.name with
    | [] => [⟨f, none, dup⟩]
    | ds => ds.map (fun d => ⟨f, some d, dup⟩))

/-- Whether a `contents` row for the given parent and child exists. -/
def contentExists (assocs : List AssocRow) (parent child : SN) : Bool :=
  assocs.any (fun a => decide (a.scope = parent.1 ∧ a.name = parent.2 ∧
    a.child_scope = child.1 ∧ a.child_name = child.2))

/-- Whether an archive-constituent row for the given archive and child exists. -/
def constituentExists (cons : List ConstituentRow) (parent child : SN) : Bool :=
  cons.any (fun c => decide (c.scope = parent.1 ∧ c.name = parent.2 ∧
    c.child_scope = child.1 ∧ c.child_name = child.2))

/-- The primary-key quadruple of a `contents` row. -/
def assocKey (a : AssocRow) : SN × SN := ((a.scope, a.name), (a.child_scope, a.child_name))

/-- Whether bulk-inserting `newRows` into `rows` violates the `contents`
primary key (the database constraint surfacing as an `IntegrityError`). -/
def assocInsertCollides (rows newRows : List AssocRow) : Bool :=
  newRows.any (fun a => rows.any (fun b => decide (assocKey a = assocKey b))) ||
    !((newRows.map assocKey).Nodup)

/-- Replace the DID rows matched by `pred` with `f` applied to them
(a set-based `update ... where`). -/
def updateDids (st : DBState) (pred : DidRow → Bool) (f : DidRow → DidRow) : DBState :=
  { st with dids := st.dids.map (fun d => if pred d then f d else d) }

/-- The check loop of `__add_collections_to_container`: walks the join rows
carrying the observed `child_type` and the set of already-attached children
collected by the `ignore_duplicate` join. -/
def collCheckLoop (assocs : List AssocRow) (parentKey : SN) (ignore_duplicate : Bool) :
    List JoinRow → Option DIDType → List SN → Except RucioErr (Option DIDType × List SN)
  | [], ct, dups => .ok (ct, dups)
  | r :: rest, ct, dups =>
    match r.did with
    | none => .error .DataIdentifierNotFound
    | some d =>
      if d.did_type = DIDType.FILE then .error .UnsupportedOperation
      else
        let ct' := match ct with
          | none => some d.did_type
          | some t => some t
        if ct' ≠ some d.did_type then .error .UnsupportedOperation
        else if ct' = some DIDType.CONTAINER ∧
            (r.file.scope, r.file.name) ∈ list_all_parent_dids assocs parentKey then
          .error .UnsupportedOperation
        else
          let dups' := if ignore_duplicate ∧ r.dup then dups ++ [(r.file.scope, r.file.name)]
            else dups
          collCheckLoop assocs parentKey ignore_duplicate rest ct' dups'

/-- Child-type payload string of the `REGISTER_CNT` / `ERASE_CNT` messages. -/
def childTypeStr : DIDType → String
  | DIDType.CONTAINER => "CONTAINER"
  | DIDType.DATASET => "DATASET"
  | DIDType.FILE => "UNKNOWN"

/-- Payload string of a DID type (`str(did.did_type)` in the `DETACH` message). -/
def didTypeStr : DIDType → String
  | DIDType.CONTAINER => "CONTAINER"
  | DIDType.DATASET => "DATASET"
  | DIDType.FILE => "FILE"

/-- `__add_collections_to_container(parent_did, collections)`: self-append
check, per-row existence/type/mix/cycle checks, then the staged association
rows and one `REGISTER_CNT` message per accepted child.  A primary-key
collision at flush surfaces as `DuplicateContent`. -/
def add_collections_to_container (st : DBState) (parent : DidRow) (children : List FileArg)
    (account : String) (ignore_duplicate : Bool) (now : Int) : Except RucioErr DBState :=
  if (children.map (fun c => (c.scope, c.name))).contains (parent.scope, parent.name) then
    .error .UnsupportedOperation
  else
    let parentKey : SN := (parent.scope, parent.name)
    let rows := joinRows st children
      (fun k => ignore_duplicate && contentExists st.assocs parentKey k)
    match collCheckLoop st.assocs parentKey ignore_duplicate rows none [] with
    | .error e => .error e
    | .ok (ct, dups) =>
      match ct with
      | none => .ok st
      | some t =>
        let accepted := children.filter (fun c =>
          !(ignore_duplicate && dups.contains (c.scope, c.name)))
        let newAssocs := accepted.map (fun c =>
          { scope := parent.scope, name := parent.name,
            child_scope := c.scope, child_name := c.name,
            did_type := DIDType.CONTAINER, child_type := t,
            bytes := none, adler32 := none, md5 := none, guid := none, events := none,
            rule_evaluation := true, created_at := some now, updated_at := some now :
            AssocRow })
        if assocInsertCollides st.assocs newAssocs then .error .DuplicateContent
        else
          let msgs := accepted.map (fun c =>
            Message.REGISTER_CNT account parent.scope parent.name c.scope c.name
              (childTypeStr t))
          .ok { st with
                assocs := st.assocs ++ newAssocs
                messages := st.messages ++ msgs }

/-- The check loop of `__add_files_to_dataset`: existence, availability, type
and supplied-value consistency checks, duplicate skips, the
`parent.is_archive` propagation flag, and the staged association rows. -/
def dsCheckLoop (parent : DidRow) (ignore_duplicate : Bool) (now : Int) :
    List JoinRow → List AssocRow → Bool → Except RucioErr (List AssocRow × Bool)
  | [], acc, arch => .ok (acc, arch)
  | r :: rest, acc, arch =>
    match r.did with
    | none => .error .DataIdentifierNotFound
    | some d =>
      if d.availability = DIDAvailability.LOST then .error .UnsupportedOperation
      else if d.did_type ≠ DIDType.FILE then .error .UnsupportedOperation
      else if r.file.bytes.isSome ∧ pyStrI r.file.bytes ≠ pyStrI d.bytes then
        .error .FileConsistencyMismatch
      else if r.file.adler32.isSome ∧ pyStrS r.file.adler32 ≠ pyStrS d.adler32 then
        .error .FileConsistencyMismatch
      else if r.file.md5.isSome ∧ pyStrS r.file.md5 ≠ pyStrS d.md5 then
        .error .FileConsistencyMismatch
      else if ignore_duplicate ∧ r.dup then
        dsCheckLoop parent ignore_duplicate now rest acc arch
      else if (acc.map (fun a => (a.child_scope, a.child_name))).contains
          (r.file.scope, r.file.name) then
        dsCheckLoop parent ignore_duplicate now rest acc arch
      else
        let arch' := arch || d.is_archive
        let row : AssocRow :=
          { scope := parent.scope, name := parent.name,
            child_scope := r.file.scope, child_name := r.file.name,
            bytes := d.bytes, adler32 := d.adler32, md5 := d.md5, guid := d.guid,
            events := d.events, did_type := DIDType.DATASET,
            child_type := DIDType.FILE, rule_evaluation := true,
            created_at := some now, updated_at := some now }
        dsCheckLoop parent ignore_duplicate now rest (acc ++ [row]) arch'

/-- `__add_files_to_dataset(parent_did, files, rse_id)`: returns the new state
and the newly attached child rows (`files_to_add`).  Replica registration for
a supplied `rse_id` is delegated to the external Replica Engine and does not
touch the catalog tables modelled here.  A primary-key collision at flush
surfaces as `FileAlreadyExists`. -/
def add_files_to_dataset (st : DBState) (parent : DidRow) (files : List FileArg)
    (account : String) (rse_id : Option String) (ignore_duplicate : Bool) (now : Int) :
    Except RucioErr (DBState × List AssocRow) :=
  let parentKey : SN := (parent.scope, parent.name)
  let rows := joinRows st files (fun k => ignore_duplicate && contentExists st.assocs parentKey k)
  match dsCheckLoop parent ignore_duplicate now rows [] parent.is_archive with
  | .error e => .error e
  | .ok (toAdd, arch) =>
    if assocInsertCollides st.assocs toAdd then .error .FileAlreadyExists
    else
      let st1 := { st with assocs := st.assocs ++ toAdd }
      let st2 := if arch && !parent.is_archive then
        updateDids st1 (fun d => decide (d.scope = parent.scope ∧ d.name = parent.name))
          (fun d => { d with is_archive := true })
        else st1
      .ok (st2, toAdd)

/-- A fresh FILE DID created by the archive sub-routine from the supplied
attributes (`constituent=true`, `did_type=FILE`, owning account; the remaining
columns take their database defaults, modelled as empty).  The pass-through of
free-form `meta` keys into domain-specific columns is not represented (no
claim reads those columns on archive-created DIDs). -/
def newFileDid (f : FileArg) (account : String) (now : Int) : DidRow :=
  { scope := f.scope, name := f.name, account := account, did_type := DIDType.FILE,
    is_open := false, monotonic := false, hidden := false, obsolete := false,
    complete := false, is_new := true, availability := DIDAvailability.AVAILABLE,
    suppressed := false, bytes := f.bytes, length := none, events := f.events,
    md5 := f.md5, adler32 := f.adler32, guid := f.guid, expired_at := none,
    purge_replicas := true, deleted_at := none, created_at := some now,
    project := none, datatype := none, run_number := none, stream_name := none,
    prod_step := none, version := none, campaign := none, task_id := none,
    panda_id := none, lumiblocknr := none, provenance := none, phys_group := none,
    transient := false, accessed_at := none, closed_at := none, eol_at := none,
    is_archive := false, constituent := true, access_cnt := none }

/-- The check loop of `__add_files_to_archive`: stages the DIDs to create, the
archive-constituent rows, and the `must_set_constituent` flag. -/
def archiveCheckLoop (parent : DidRow) (account : String) (ignore_duplicate : Bool) (now : Int) :
    List JoinRow → List DidRow → List ConstituentRow → Bool →
    Except RucioErr (List DidRow × List ConstituentRow × Bool)
  | [], dids, contents, msc => .ok (dids, contents, msc)
  | r :: rest, dids, contents, msc =>
    if ignore_duplicate ∧ r.dup then
      archiveCheckLoop parent account ignore_duplicate now rest dids contents msc
    else if (contents.map (fun c => (c.child_scope, c.child_name))).contains
        (r.file.scope, r.file.name) then
      archiveCheckLoop parent account ignore_duplicate now rest dids contents msc
    else
      match r.did with
      | none =>
        let newContent : ConstituentRow :=
          { scope := parent.scope, name := parent.name,
            child_scope := r.file.scope, child_name := r.file.name,
            bytes := r.file.bytes, adler32 := r.file.adler32, md5 := r.file.md5,
            guid := r.file.guid, length := r.file.events }
        archiveCheckLoop parent account ignore_duplicate now rest
          (dids ++ [newFileDid r.file account now]) (contents ++ [newContent]) msc
      | some d =>
        if d.did_type ≠ DIDType.FILE then .error .UnsupportedOperation
        else
          let msc' := msc || !d.constituent
          let newContent : ConstituentRow :=
            { scope := parent.scope, name := parent.name,
              child_scope := r.file.scope, child_name := r.file.name,
              bytes := d.bytes, adler32 := d.adler32, md5 := d.md5,
              guid := d.guid, length := d.events }
          archiveCheckLoop parent account ignore_duplicate now rest
            dids (contents ++ [newContent]) msc'

/-- `__add_files_to_archive(parent_did, files)`: create missing FILE DIDs as
constituents, stage the archive-content rows, flip `constituent` on the
pre-existing children that need it, and propagate `is_archive` to the archive
file and its parent datasets. -/
def add_files_to_archive (st : DBState) (parent : DidRow) (files : List FileArg)
    (account : String) (ignore_duplicate : Bool) (now : Int) : Except RucioErr DBState :=
  let parentKey : SN := (parent.scope, parent.name)
  let rows := joinRows st files
    (fun k => ignore_duplicate && constituentExists st.constituents parentKey k)
  match archiveCheckLoop parent account ignore_duplicate now rows [] [] false with
  | .error e => .error e
  | .ok (newDids, newContents, msc) =>
    let childKeys := files.map (fun f => (f.scope, f.name))
    let st1 := { st with
                 dids := st.dids ++ newDids
                 constituents := st.constituents ++ newContents }
    let st2 := if msc then
        updateDids st1
          (fun d => childKeys.contains (d.scope, d.name) && !d.constituent)
          (fun d => { d with constituent := true })
      else st1
    if !parent.is_archive then
      let st3 := updateDids st2
        (fun d => decide (d.scope = parent.scope ∧ d.name = parent.name))
        (fun d => { d with is_archive := true })
      let st4 := updateDids st3
        (fun d => st3.assocs.any (fun a => decide (a.child_scope = parent.scope ∧
            a.child_name = parent.name ∧ a.scope = d.scope ∧ a.name = d.name)) &&
          !d.is_archive)
        (fun d => { d with is_archive := true })
      .ok st4
    else .ok st2

/-- The attachment loop of `attach_dids_to_dids`.  Returns the state, the
accumulated updated-DID markers, and whether the archive branch ended the call
with its bare `return` (in which case the remaining attachments were not
processed). -/
def attachLoop (account : String) (ignore_duplicate : Bool) (now : Int) :
    DBState → List Attachment → List UpdatedDidRow →
    Except RucioErr (DBState × List UpdatedDidRow × Bool)
  | st, [], markers => .ok (st, markers, false)
  | st, att :: rest, markers =>
    match getOne (didsWithKey st att.scope att.name) with
    | .noResult => .error .DataIdentifierNotFound
    | .many => .error .MultipleRowsFound
    | .one parent =>
      let children := pyDict att.dids
      if parent.did_type = DIDType.FILE then
        if isArchiveName att.name then
          match add_files_to_archive st parent children account ignore_duplicate now with
          | .error e => .error e
          | .ok st1 => .ok (st1, markers, true)
        else .error .UnsupportedOperation
      else if !parent.is_open then .error .UnsupportedOperation
      else if parent.did_type = DIDType.DATASET then
        match add_files_to_dataset st parent children account att.rse_id ignore_duplicate now with
        | .error e => .error e
        | .ok (st1, cont) =>
          let markers' := if cont.length > 0 then
              markers ++ [⟨parent.scope, parent.name, ReEvaluation.ATTACH⟩]
            else markers
          attachLoop account ignore_duplicate now st1 rest markers'
      else
        match add_collections_to_container st parent children account ignore_duplicate now with
        | .error e => .error e
        | .ok st1 =>
          attachLoop account ignore_duplicate now st1 rest
            (markers ++ [⟨parent.scope, parent.name, ReEvaluation.ATTACH⟩])

/-- `attach_dids_to_dids(attachments, account, ignore_duplicate)`: process each
attachment, then deduplicate the collected updated-DID markers and insert
them.  The archive branch returns from the whole call before that insert, so a
batch that hits it commits no markers at all. -/
def attach_dids_to_dids (st : DBState) (attachments : List Attachment) (account : String)
    (ignore_duplicate : Bool) (now : Int) : Except RucioErr DBState :=
  match attachLoop account ignore_duplicate now st attachments [] with
  | .error e => .error e
  | .ok (st1, markers, earlyReturn) =>
    if earlyReturn then .ok st1
    else .ok { st1 with updated_dids := st1.updated_dids ++ markers.dedup }

/-! ## Detach Engine (`detach_dids`, §4.4) -/

/-- The aggregate update `detach_dids` applies to the parent row for one
removed association: decrement `length` when it is non-NULL and non-zero, and
decrement `bytes` (resp. `events`) when both the stored value and the cached
association value are non-NULL and non-zero. -/
def detachUpdateDid (did : DidRow) (associ : AssocRow) : DidRow :=
  let did := if truthyI did.length then { did with length := did.length.map (· - 1) } else did
  let did := if truthyI did.bytes && truthyI associ.bytes then
      { did with bytes := some (did.bytes.getD 0 - associ.bytes.getD 0) } else did
  if truthyI did.events && truthyI associ.events then
    { did with events := some (did.events.getD 0 - associ.events.getD 0) } else did

/-- The history row written for one removed association. -/
def historyOf (associ : AssocRow) (did_created_at : Option Int) (now : Int) : AssocHistoryRow :=
  { scope := associ.scope, name := associ.name, child_scope := associ.child_scope,
    child_name := associ.child_name, did_type := associ.did_type,
    child_type := associ.child_type, bytes := associ.bytes, adler32 := associ.adler32,
    md5 := associ.md5, guid := associ.guid, events := associ.events,
    rule_evaluation := associ.rule_evaluation, did_created_at := did_created_at,
    created_at := associ.created_at, updated_at := associ.updated_at,
    deleted_at := some now }

/-- The per-child loop of `detach_dids`: self-check, association lookup,
aggregate decrement on the parent row, history row, association removal and
the `ERASE_CNT`/`DETACH` messages. -/
def detachChildrenLoop (scope name : String) (now : Int) :
    DBState → DidRow → List SN → Except RucioErr (DBState × DidRow)
  | st, did, [] => .ok (st, did)
  | st, did, c :: rest =>
    if scope = c.1 ∧ name = c.2 then .error .UnsupportedOperation
    else
      match (assocsOfParent st.assocs scope name).filter
          (fun a => decide (a.child_scope = c.1 ∧ a.child_name = c.2)) with
      | [] => .error .DataIdentifierNotFound
      | associ :: _ =>
        let did' := detachUpdateDid did associ
        let st1 := { st with
          assocs := st.assocs.eraseP (fun a => decide (a.scope = scope ∧ a.name = name ∧
            a.child_scope = c.1 ∧ a.child_name = c.2))
          assoc_history := st.assoc_history ++ [historyOf associ did.created_at now] }
        let msgs :=
          (if did.did_type = DIDType.CONTAINER then
            [Message.ERASE_CNT scope name c.1 c.2 (childTypeStr associ.child_type)]
          else []) ++
          [Message.DETACH scope name (didTypeStr did.did_type) c.1 c.2
            (didTypeStr associ.child_type)]
        detachChildrenLoop scope name now
          { st1 with messages := st1.messages ++ msgs } did' rest

/-- The row filter of the parent lock taken by `detach_dids`: the key and a
collection type. -/
def detachParentPred (scope name : String) (d : DidRow) : Bool :=
  decide (d.scope = scope ∧ d.name = name ∧
    (d.did_type = DIDType.CONTAINER ∨ d.did_type = DIDType.DATASET))

/-- `detach_dids(scope, name, dids)`: lock the collection parent, append a
`DETACH` updated-DID marker, require at least one existing child, then remove
each requested association, decrementing the parent aggregates and writing a
history row per removed edge. -/
def detach_dids (st : DBState) (scope name : String) (children : List SN) (now : Int) :
    Except RucioErr DBState :=
  match getOne (st.dids.filter (detachParentPred scope name)) with
  | .noResult => .error .DataIdentifierNotFound
  | .many => .error .MultipleRowsFound
  | .one did =>
    let st1 := { st with
      updated_dids := st.updated_dids ++ [⟨scope, name, ReEvaluation.DETACH⟩] }
    if (assocsOfParent st1.assocs scope name).isEmpty then .error .DataIdentifierNotFound
    else
      match detachChildrenLoop scope name now st1 did children with
      | .error e => .error e
      | .ok (st2, did') =>
        .ok { st2 with
          dids := st2.dids.map (fun d => if detachParentPred scope name d then did' else d) }

/-! ## Set Status (`set_status`, §4.6) -/

/-- `set_new_dids(dids, new_flag)` restricted to a single key, as called from
`set_status`: set `is_new` on the rows with that key, failing when none match. -/
def set_new_dids_single (st : DBState) (scope name : String) (new_flag : Bool) :
    Except RucioErr DBState :=
  if (didsWithKey st scope name).isEmpty then .error .DataIdentifierNotFound
  else .ok (updateDids st (fun d => decide (d.scope = scope ∧ d.name = name))
    (fun d => { d with is_new := new_flag }))

/-- The row filter of the closing update of `set_status`: the key, a
collection type, currently open, and not a FILE. -/
def closePred (scope name : String) (d : DidRow) : Bool :=
  decide (d.scope = scope ∧ d.name = name ∧
    (d.did_type = DIDType.CONTAINER ∨ d.did_type = DIDType.DATASET) ∧
    d.is_open = true ∧ d.did_type ≠ DIDType.FILE)

/-- The row filter of the reopening update of `set_status`. -/
def openPred (scope name : String) (d : DidRow) : Bool :=
  decide (d.scope = scope ∧ d.name = name ∧
    (d.did_type = DIDType.CONTAINER ∨ d.did_type = DIDType.DATASET) ∧
    d.is_open = false ∧ d.did_type ≠ DIDType.FILE)

/-- `set_status(scope, name, open=openFlag)`.  Closing resolves the final
aggregates through `__resolve_bytes_length_events_did` — called without a
`dynamic_depth` argument, hence at its default depth `FILE` whatever the DID
type — writes them with `is_open=false` and `closed_at`, propagates
`(length, bytes)` into the dataset locks, and emits a `CLOSE` message;
reopening requires a closed collection and emits `OPEN`.  A zero row count
surfaces as `DataIdentifierNotFound` or `UnsupportedOperation`. -/
def set_status (st : DBState) (scope name : String) (openFlag : Bool) (cfg : Config)
    (now : Int) : Except RucioErr DBState :=
  if openFlag then
    let rowcount := (st.dids.filter (openPred scope name)).length
    if rowcount = 0 then
      if (didsWithKey st scope name).isEmpty then .error .DataIdentifierNotFound
      else .error .UnsupportedOperation
    else
      .ok { (updateDids st (openPred scope name) (fun d => { d with is_open := true })) with
            messages := st.messages ++ [Message.OPEN scope name] }
  else
    match getOne (didsWithKey st scope name) with
    | .noResult => .error .DataIdentifierNotFound
    | .many => .error .MultipleRowsFound
    | .one did =>
      let r := resolve_bytes_length_events st did DIDType.FILE
      let bytes_ := r.1
      let length := r.2.1
      let events := r.2.2
      let st1 := { st with
        dataset_locks := st.dataset_locks.map (fun l =>
          if decide (l.scope = scope ∧ l.name = name) then
            { l with length := some length, bytes := some bytes_ } else l)
        messages := st.messages ++ [Message.CLOSE scope name bytes_ length events] }
      match (if cfg.reevaluate_dids_at_close then
          set_new_dids_single st1 scope name true else .ok st1) with
      | .error e => .error e
      | .ok st2 =>
        let rowcount := (st2.dids.filter (closePred scope name)).length
        if rowcount = 0 then
          if (didsWithKey st2 scope name).isEmpty then .error .DataIdentifierNotFound
          else .error .UnsupportedOperation
        else
          .ok (updateDids st2 (closePred scope name) (fun d =>
            { d with
              is_open := false, closed_at := some now,
              bytes := some bytes_, length := some length, events := some events }))

/-! ## Scan / Sharding (`list_expired_dids`, §4.7) -/

/-- The database dialects distinguished by `list_expired_dids`. -/
inductive Dialect where
  | oracle
  | mysql
  | postgresql
  | sqlite
deriving DecidableEq, Repr

/-- An output row of `list_expired_dids`. -/
structure ExpiredDid where
  scope : String
  name : String
  did_type : DIDType
  created_at : Option Int
  purge_replicas : Bool
deriving DecidableEq, Repr

/-- Whether a DID is protected by a locked replication rule (the negated
`exists` sub-query of `list_expired_dids`). -/
def hasLockedRule (rules : List RuleRow) (d : DidRow) : Bool :=
  rules.any (fun r => decide (r.scope = d.scope ∧ r.name = d.name) && r.locked)

/-- Insert a row into a list sorted by ascending `expired_at`. -/
def insertByExpired (d : DidRow) : List DidRow → List DidRow
  | [] => [d]
  | e :: es => if d.expired_at.getD 0 ≤ e.expired_at.getD 0 then d :: e :: es
    else e :: insertByExpired d es

/-- Sort rows by ascending `expired_at` (the `order_by` of the scan). -/
def sortByExpired (l : List DidRow) : List DidRow := l.foldr insertByExpired []

/-- Python truthiness of the `limit` argument: `if limit:` skips a 0 limit. -/
def applyLimit (limit : Option Nat) (l : List α) : List α :=
  match limit with
  | none => l
  | some k => if k = 0 then l else l.take k

/-- Modelled from the spec: `filter_thread_work` is not part of the sources;
per §4.7 the pushdown backends filter on
`hash(name) mod total_workers == worker_number`, the hash itself being
backend-provided (passed here as `hashFn`). -/
def filter_thread_work (hashFn : String → Nat) (worker_number total_workers : Option Nat)
    (rows : List DidRow) : List DidRow :=
  match worker_number, total_workers with
  | some w, some t => if 0 < t then rows.filter (fun d => decide (hashFn d.name % t = w)) else rows
  | _, _ => rows

/-- `list_expired_dids(worker_number, total_workers, limit)`: DIDs with
`expired_at` strictly before now and no locked rule, ordered by `expired_at`.
On the pushdown dialects the worker shard is selected by `filter_thread_work`;
on SQLite a client-side md5-mod filter runs — but only when `worker_number` is
truthy, so worker 0 receives the full unfiltered stream.  `md5Fn` stands for
`int(md5(name).hexdigest(), 16)`. -/
def list_expired_dids (st : DBState) (dialect : Dialect) (hashFn md5Fn : String → Nat)
    (worker_number total_workers limit : Option Nat) (now : Int) :
    Except RucioErr (List ExpiredDid) :=
  let base := sortByExpired (st.dids.filter (fun d =>
    (match d.expired_at with
      | none => false
      | some t => decide (t < now)) && !hasLockedRule st.rules d))
  if dialect = Dialect.oracle ∨ dialect = Dialect.mysql ∨ dialect = Dialect.postgresql then
    let rows := filter_thread_work hashFn worker_number total_workers base
    .ok ((applyLimit limit rows).map (fun d =>
      ⟨d.scope, d.name, d.did_type, d.created_at, d.purge_replicas⟩))
  else if dialect = Dialect.sqlite ∧ truthyN worker_number = true ∧
      truthyN total_workers = true ∧ 0 < total_workers.getD 0 then
    let w := worker_number.getD 0
    let t := total_workers.getD 0
    let rows := base.filter (fun d => decide (md5Fn d.name % t = w))
    .ok ((applyLimit limit rows).map (fun d =>
      ⟨d.scope, d.name, d.did_type, d.created_at, d.purge_replicas⟩))
  else
    if truthyN worker_number && truthyN total_workers then .error .DatabaseException
    else .ok ((applyLimit limit base).map (fun d =>
      ⟨d.scope, d.name, d.did_type, d.created_at, d.purge_replicas⟩))

/-! ## Delete Engine (`delete_dids`, §4.5), archival and resurrection -/

/-- An input entry of `delete_dids`.  `purge_replicas` keeps the tri-state of
the source (`did['purge_replicas'] is False`). -/
structure DeleteArg where
  scope : String
  name : String
  did_type : DIDType
  purge_replicas : Option Bool
  created_at : Option Int
deriving DecidableEq, Repr

/-- `insert_content_history(filter_, did_created_at)`: copy the selected
association rows into the history table; when no `did_created_at` was passed
each history row takes the association row's own `created_at`. -/
def insert_content_history (st : DBState) (rows : List AssocRow)
    (did_created_at : Option Int) (now : Int) : DBState :=
  { st with
    assoc_history := st.assoc_history ++ rows.map (fun cont =>
      historyOf cont (match did_created_at with
        | none => cont.created_at
        | some t => some t) now) }

/-- The archived snapshot `insert_deleted_dids` builds from a live row: every
column of its select list except `access_cnt`, which is selected but not
copied, and `deleted_at` stamped with the current time. -/
def snapshotOf (d : DidRow) (now : Int) : DeletedDidRow :=
  { scope := d.scope, name := d.name, account := d.account, did_type := d.did_type,
    is_open := d.is_open, monotonic := d.monotonic, hidden := d.hidden,
    obsolete := d.obsolete, complete := d.complete, is_new := d.is_new,
    availability := d.availability, suppressed := d.suppressed, bytes := d.bytes,
    length := d.length, md5 := d.md5, adler32 := d.adler32,
    expired_at := d.expired_at, purge_replicas := d.purge_replicas,
    deleted_at := some now, events := d.events, guid := d.guid,
    project := d.project, datatype := d.datatype, run_number := d.run_number,
    stream_name := d.stream_name, prod_step := d.prod_step, version := d.version,
    campaign := d.campaign, task_id := d.task_id, panda_id := d.panda_id,
    lumiblocknr := d.lumiblocknr, provenance := d.provenance,
    phys_group := d.phys_group, transient := d.transient,
    accessed_at := d.accessed_at, closed_at := d.closed_at, eol_at := d.eol_at,
    is_archive := d.is_archive, constituent := d.constituent }

/-- `insert_deleted_dids(filter_)`: snapshot the live rows matching the filter
into the deleted-DIDs table. -/
def insert_deleted_dids (st : DBState) (pred : DidRow → Bool) (now : Int) : DBState :=
  { st with deleted_dids := st.deleted_dids ++ (st.dids.filter pred).map (snapshotOf · now) }

/-- The phase-B loop of `delete_dids`: detach each found external parent edge
through the Detach Engine. -/
def detachParentsLoop (now : Int) : DBState → List AssocRow → Except RucioErr DBState
  | st, [] => .ok st
  | st, a :: rest =>
    match detach_dids st a.scope a.name [(a.child_scope, a.child_name)] now with
    | .error e => .error e
    | .ok st1 => detachParentsLoop now st1 rest

/-- The per-input-DID entry work of `delete_dids`: optional content archival
(`deletion.archive_content`) and the `ERASE` message. -/
def deleteEntryStep (account : String) (cfg : Config) (now : Int) (acc : DBState)
    (d : DeleteArg) : DBState :=
  let acc1 := if cfg.archive_content then
      insert_content_history acc (assocsOfParent acc.assocs d.scope d.name) d.created_at now
    else acc
  { acc1 with messages := acc1.messages ++ [Message.ERASE account d.scope d.name] }

/-- Phase A of `delete_dids`: rules on the input DIDs.  Rule deletion happens
in the external rule engine; its catalog-visible effect — the hard-deleted
rule rows disappearing — is modelled directly, while a soft expiry (an
oversized rule under `expire_rules`) leaves the rule in place and raises the
skip flag.  The per-rule `purge_replicas` propagation and the lifetime update
of a soft-expired DID are arguments to the external engine and metadata
plugin and have no catalog-table effect here. -/
def deleteRulesPhase (st : DBState) (allKeys : List SN) (expire_rules : Bool)
    (cfg : Config) : DBState × Bool :=
  let ruleRows := st.rules.filter (fun r => allKeys.contains (r.scope, r.name))
  let oversized := fun (r : RuleRow) =>
    decide (cfg.expire_rules_locks_size <
      r.locks_ok_cnt + r.locks_replicating_cnt + r.locks_stuck_cnt)
  let skip_deletion := expire_rules && ruleRows.any oversized
  ({ st with
     rules := st.rules.filter (fun r =>
       !(allKeys.contains (r.scope, r.name) && !(expire_rules && oversized r))) },
   skip_deletion)

/-- Phase B of `delete_dids`: detach the input DIDs from their external
parents, reporting whether any parent edge existed. -/
def deleteParentPhase (st : DBState) (allKeys : List SN) (now : Int) :
    Except RucioErr (DBState × Bool) :=
  let parentEdges := st.assocs.filter (fun a => allKeys.contains (a.child_scope, a.child_name))
  match detachParentsLoop now st parentEdges with
  | .error e => .error e
  | .ok st1 => .ok (st1, !parentEdges.isEmpty)

/-- Phase C of `delete_dids`: generic DID metadata (`must_delete_did_meta` is
treated as unconditional on modern backends). -/
def deleteMetaPhase (st : DBState) (allKeys : List SN) : DBState :=
  { st with did_meta := st.did_meta.filter (fun k => !allKeys.contains k) }

/-- Phase D of `delete_dids`: bad replicas of the file inputs turn DELETED. -/
def deleteBadFilesPhase (st : DBState) (fileKeys : List SN) (now : Int) : DBState :=
  if fileKeys.isEmpty then st
  else
    { st with
      bad_replicas := st.bad_replicas.map (fun b =>
        if b.state = BadFilesStatus.BAD && fileKeys.contains (b.scope, b.name) then
          { b with state := BadFilesStatus.DELETED, updated_at := some now }
        else b) }

/-- Phase E of `delete_dids`: collection expansion — resolve the child files,
turn their bad replicas DELETED, optionally epoch-tombstone their unlocked
replicas, then delete the content rows and the collection replicas of the
collection inputs. -/
def deleteCollectionContentPhase (st : DBState) (collKeys : List SN) (cfg : Config)
    (now : Int) : DBState :=
  if collKeys.isEmpty then st
  else
    let resolvedFiles := ((st.assocs.filter (fun a =>
      collKeys.contains (a.scope, a.name) &&
        decide (a.child_type = DIDType.FILE))).map
      (fun a => (a.child_scope, a.child_name))).dedup
    let s1 := { st with
      bad_replicas := st.bad_replicas.map (fun (b : BadReplicaRow) =>
        if b.state = BadFilesStatus.BAD && resolvedFiles.contains (b.scope, b.name) then
          { b with state := BadFilesStatus.DELETED, updated_at := some now }
        else b) }
    let s2 := if cfg.purge_all_replicas then
        { s1 with
          replicas := s1.replicas.map (fun (r : ReplicaRow) =>
            if resolvedFiles.contains (r.scope, r.name) &&
                decide (r.lock_cnt = 0) && r.tombstone.isSome then
              { r with tombstone := some 0 }
            else r) }
      else s1
    { s2 with
      assocs := s2.assocs.filter (fun a => !collKeys.contains (a.scope, a.name))
      collection_replicas := s2.collection_replicas.filter
        (fun k => !collKeys.contains k) }

/-- The collection-row filter of Phase G. -/
def isCollRow (collKeys : List SN) (d : DidRow) : Bool :=
  collKeys.contains (d.scope, d.name) &&
    decide (d.did_type = DIDType.CONTAINER ∨ d.did_type = DIDType.DATASET)

/-- Phase G of `delete_dids`: terminal removal — drop the follow rows of the
collections, snapshot them when archiving is on, delete the collection DID
rows, and clear the expiry of the file inputs. -/
def deleteTerminalPhase (st : DBState) (collKeys fileKeys : List SN) (cfg : Config)
    (now : Int) : DBState :=
  let stG1 :=
    if collKeys.isEmpty then st
    else
      let s1 := { st with
        dids_followed := st.dids_followed.filter (fun k => !collKeys.contains k) }
      let s2 := if cfg.archive_dids then insert_deleted_dids s1 (isCollRow collKeys) now
        else s1
      { s2 with dids := s2.dids.filter (fun d => !isCollRow collKeys d) }
  if fileKeys.isEmpty then stG1
  else updateDids stG1
    (fun d => fileKeys.contains (d.scope, d.name) &&
      decide (d.did_type = DIDType.FILE))
    (fun d => { d with expired_at := none })

/-- `delete_dids(dids, account, expire_rules)`: the phased deletion, assembled
from the phases above in source order, with the early returns after a soft
rule expiry (Phase A) and while external parents held foreign keys
(Phase F). -/
def delete_dids (st : DBState) (dids : List DeleteArg) (account : String)
    (expire_rules : Bool) (cfg : Config) (now : Int) : Except RucioErr DBState :=
  if dids.isEmpty then .ok st
  else
    let allKeys := (dids.map (fun d => (d.scope, d.name))).dedup
    let fileKeys := ((dids.filter (fun d => decide (d.did_type = DIDType.FILE))).map
      (fun d => (d.scope, d.name))).dedup
    let collKeys := ((dids.filter (fun d => decide (d.did_type ≠ DIDType.FILE))).map
      (fun d => (d.scope, d.name))).dedup
    let st0 := dids.foldl (deleteEntryStep account cfg now) st
    let pA := deleteRulesPhase st0 allKeys expire_rules cfg
    if pA.2 then .ok pA.1
    else
      match deleteParentPhase pA.1 allKeys now with
      | .error e => .error e
      | .ok pB =>
        let stC := deleteMetaPhase pB.1 allKeys
        let stD := deleteBadFilesPhase stC fileKeys now
        let stE := deleteCollectionContentPhase stD collKeys cfg now
        if pB.2 then .ok stE
        else .ok (deleteTerminalPhase stE collKeys fileKeys cfg now)

/-- The live row `resurrect` re-inserts from an archived snapshot: every
snapshot column, with the expiry cleared.  The snapshot has no `access_cnt`
(it is never archived), so the new row takes the column default; the archived
row's own bookkeeping `created_at` is managed outside the sources and is
likewise restored as empty. -/
def restoreDid (dd : DeletedDidRow) : DidRow :=
  { scope := dd.scope, name := dd.name, account := dd.account, did_type := dd.did_type,
    is_open := dd.is_open, monotonic := dd.monotonic, hidden := dd.hidden,
    obsolete := dd.obsolete, complete := dd.complete, is_new := dd.is_new,
    availability := dd.availability, suppressed := dd.suppressed, bytes := dd.bytes,
    length := dd.length, events := dd.events, md5 := dd.md5, adler32 := dd.adler32,
    guid := dd.guid, expired_at := none, purge_replicas := dd.purge_replicas,
    deleted_at := dd.deleted_at, created_at := none, project := dd.project,
    datatype := dd.datatype, run_number := dd.run_number,
    stream_name := dd.stream_name, prod_step := dd.prod_step,
    version := dd.version, campaign := dd.campaign, task_id := dd.task_id,
    panda_id := dd.panda_id, lumiblocknr := dd.lumiblocknr,
    provenance := dd.provenance, phys_group := dd.phys_group,
    transient := dd.transient, accessed_at := dd.accessed_at,
    closed_at := dd.closed_at, eol_at := dd.eol_at, is_archive := dd.is_archive,
    constituent := dd.constituent, access_cnt := none }

/-- The fallback filter of `resurrect`: a live row with the key whose
`expired_at` lies in the past. -/
def resurrectExpiredPred (k : SN) (now : Int) (d : DidRow) : Bool :=
  decide (d.scope = k.1 ∧ d.name = k.2) &&
    (match d.expired_at with
      | none => false
      | some t => decide (t < now))

/-- The per-key loop of `resurrect`: restore from the archived snapshot when
one exists, otherwise clear a past expiry on the live row in place, otherwise
fail. -/
def resurrectLoop (now : Int) : DBState → List SN → Except RucioErr DBState
  | st, [] => .ok st
  | st, k :: rest =>
    match getOne (st.deleted_dids.filter (fun d => decide (d.scope = k.1 ∧ d.name = k.2))) with
    | .many => .error .MultipleRowsFound
    | .noResult =>
      let pred := resurrectExpiredPred k now
      if (st.dids.filter pred).length ≠ 0 then
        resurrectLoop now (updateDids st pred (fun d => { d with expired_at := none })) rest
      else .error .DataIdentifierNotFound
    | .one dd =>
      let st1 := { st with
        deleted_dids := st.deleted_dids.filter (fun d =>
          !(decide (d.scope = k.1 ∧ d.name = k.2)))
        dids := st.dids ++ [restoreDid dd] }
      resurrectLoop now st1 rest

/-- `resurrect(dids)`. -/
def resurrect (st : DBState) (dids : List SN) (now : Int) : Except RucioErr DBState :=
  resurrectLoop now st dids

/-! ## Concrete fixtures

Small catalog states used by the witnesses and counterexamples. -/

/-- The empty catalog. -/
def emptyState : DBState :=
  { dids := [], assocs := [], assoc_history := [], constituents := [],
    deleted_dids := [], rules := [], updated_dids := [], dataset_locks := [],
    bad_replicas := [], replicas := [], collection_replicas := [],
    dids_followed := [], did_meta := [], messages := [] }

/-- A DID row with plain defaults: open, available, no aggregates, owner
`root`. -/
def mkDid (scope name : String) (t : DIDType) : DidRow :=
  { scope := scope, name := name, account := "root", did_type := t,
    is_open := true, monotonic := false, hidden := false, obsolete := false,
    complete := false, is_new := false, availability := DIDAvailability.AVAILABLE,
    suppressed := false, bytes := none, length := none, events := none,
    md5 := none, adler32 := none, guid := none, expired_at := none,
    purge_replicas := false, deleted_at := none, created_at := some 0,
    project := none, datatype := none, run_number := none, stream_name := none,
    prod_step := none, version := none, campaign := none, task_id := none,
    panda_id := none, lumiblocknr := none, provenance := none, phys_group := none,
    transient := false, accessed_at := none, closed_at := none, eol_at := none,
    is_archive := false, constituent := false, access_cnt := none }

/-- An association row with the cached attributes used by the fixtures. -/
def mkAssoc (ps pn cs cn : String) (dt ct : DIDType) (bytes events : Option Int) : AssocRow :=
  { scope := ps, name := pn, child_scope := cs, child_name := cn,
    did_type := dt, child_type := ct, bytes := bytes, adler32 := none,
    md5 := none, guid := none, events := events, rule_evaluation := true,
    created_at := some 0, updated_at := some 0 }

/-- A child argument carrying only a key. -/
def mkArg (scope name : String) : FileArg :=
  { scope := scope, name := name, bytes := none, adler32 := none, md5 := none,
    guid := none, events := none }

/-- The default configuration: all flags off, lock threshold 10000. -/
def cfg0 : Config :=
  { archive_dids := false, archive_content := false, purge_all_replicas := false,
    reevaluate_dids_at_close := false, expire_rules_locks_size := 10000 }

/-- The configuration with `deletion.archive_dids=true`. -/
def cfgArchive : Config := { cfg0 with archive_dids := true }

/-- Fixture: a dataset whose stored aggregates (100, 5, 7) differ from the
sums over its two file associations (30, 2, 3). -/
def didD : DidRow :=
  { mkDid "s" "D" DIDType.DATASET with bytes := some 100, length := some 5, events := some 7 }

/-- Fixture: an open container. -/
def didC : DidRow := mkDid "s" "C" DIDType.CONTAINER

/-- Fixture state for closing a container: `s:C` holds dataset `s:D`, which
holds files `s:f1` (10 bytes, 1 event) and `s:f2` (20 bytes, 2 events); one
dataset lock row exists for `s:C`. -/
def stClose : DBState := { emptyState with
  dids := [didC, didD, mkDid "s" "f1" DIDType.FILE, mkDid "s" "f2" DIDType.FILE]
  assocs := [mkAssoc "s" "C" "s" "D" DIDType.CONTAINER DIDType.DATASET none none,
    mkAssoc "s" "D" "s" "f1" DIDType.DATASET DIDType.FILE (some 10) (some 1),
    mkAssoc "s" "D" "s" "f2" DIDType.DATASET DIDType.FILE (some 20) (some 2)]
  dataset_locks := [{ scope := "s", name := "C", length := none, bytes := none }] }

/-- Fixture state for cross-call container mixing: container `s:C` already
holds the dataset `s:D`; the container `s:C2` also exists. -/
def stMix : DBState := { emptyState with
  dids := [didC, didD, mkDid "s" "C2" DIDType.CONTAINER]
  assocs := [mkAssoc "s" "C" "s" "D" DIDType.CONTAINER DIDType.DATASET none none] }

/-- Fixture state for cycle rejection: container `s:CA` holds container
`s:CB`. -/
def stCycle : DBState := { emptyState with
  dids := [mkDid "s" "CA" DIDType.CONTAINER, mkDid "s" "CB" DIDType.CONTAINER]
  assocs := [mkAssoc "s" "CA" "s" "CB" DIDType.CONTAINER DIDType.CONTAINER none none] }

/-- Fixture state for the expired scan: two expired unprotected datasets. -/
def stExpired : DBState := { emptyState with
  dids := [{ mkDid "s" "a" DIDType.DATASET with expired_at := some 10 },
    { mkDid "s" "b" DIDType.DATASET with expired_at := some 20 }] }

/-- Fixture hash: names shard to class 0 except `b`, which shards to class 1
(standing for `int(md5(name).hexdigest(), 16)` on the fixture names). -/
def md5Fix : String → Nat := fun n => if n = "b" then 1 else 0

/-- Fixture: a stored FILE of 10 bytes. -/
def didF1 : DidRow := { mkDid "s" "f1" DIDType.FILE with bytes := some 10 }

/-- Fixture: an open dataset with no aggregates. -/
def didDS : DidRow := mkDid "s" "D" DIDType.DATASET

/-- Fixture state for the file-consistency check: dataset `s:D` and the stored
file `s:f1`. -/
def stFiles : DBState := { emptyState with dids := [didDS, didF1] }

/-- Fixture state for the marker-dropping batch: dataset `s:D`, file `s:f1`,
the archive file `s:x.zip` and the loose file `s:g`. -/
def stBatch : DBState := { emptyState with
  dids := [didDS, didF1, mkDid "s" "x.zip" DIDType.FILE, mkDid "s" "g" DIDType.FILE] }

/-- Fixture batch: a dataset attachment that changes the parent's relation,
followed by a FILE-archive attachment. -/
def attBatch : List Attachment :=
  [{ scope := "s", name := "D", rse_id := none, dids := [mkArg "s" "f1"] },
   { scope := "s", name := "x.zip", rse_id := none, dids := [mkArg "s" "g"] }]

/-- Fixture attachment: files `s:f1` into dataset `s:D`. -/
def attDS : Attachment :=
  { scope := "s", name := "D", rse_id := none, dids := [mkArg "s" "f1"] }

/-- The state after running the attach loop on the dataset attachment alone. -/
def stBatchAfter : DBState :=
  match attachLoop "root" false 50 stBatch [attDS] [] with
  | .ok (s, _, _) => s
  | .error _ => stBatch

/-- The state returned by the full fixture batch (dataset attachment followed
by the FILE-archive attachment). -/
def stBatchFull : DBState :=
  match attach_dids_to_dids stBatch attBatch "root" false 50 with
  | .ok s => s
  | .error _ => stBatch

/-- The state returned by the dataset attachment alone. -/
def stDSOnly : DBState :=
  match attach_dids_to_dids stBatch [attDS] "root" false 50 with
  | .ok s => s
  | .error _ => stBatch

/-- Fixture state for deletion with an external parent: dataset `s:D` (with
aggregates) attached under container `s:C`. -/
def stParented : DBState := { emptyState with
  dids := [didC, { didD with bytes := some 30, length := some 2, events := some 3 }]
  assocs := [mkAssoc "s" "C" "s" "D" DIDType.CONTAINER DIDType.DATASET (some 30) (some 3)] }

/-- Fixture: a second open container. -/
def didC2 : DidRow := mkDid "s" "C2" DIDType.CONTAINER

/-- Fixture state for deletion under two external parents: dataset `s:D`
(with aggregates) attached under containers `s:C` and `s:C2`. -/
def stParented2 : DBState := { emptyState with
  dids := [didC, didC2, { didD with bytes := some 30, length := some 2, events := some 3 }]
  assocs := [mkAssoc "s" "C" "s" "D" DIDType.CONTAINER DIDType.DATASET (some 30) (some 3),
    mkAssoc "s" "C2" "s" "D" DIDType.CONTAINER DIDType.DATASET none none] }

/-- Fixture deletion argument for dataset `s:D`. -/
def delArgD : DeleteArg :=
  { scope := "s", name := "D", did_type := DIDType.DATASET, purge_replicas := none,
    created_at := none }

/-- Fixture: dataset `s:D` with a non-null access counter and a past expiry,
alone in the catalog. -/
def didD8 : DidRow := { didD with access_cnt := some 5, expired_at := some 3 }

/-- Fixture state for the delete/resurrect round trip. -/
def stRoundTrip : DBState := { emptyState with dids := [didD8] }

/-! ## Statement-side notions

Definitions used only to state properties: the claim's reading of the
aggregation, the edge relations of the association DAG, and acyclicity. -/

/-- The aggregation as the specification words it (§4.8): FILE answers
`(bytes or 0, 1, events or 0)`; a DATASET at depth FILE aggregates count and
sums over its association rows; a CONTAINER at depth DATASET sums the stored
`(length, bytes, events)` of its recursively resolved child datasets; a
CONTAINER at depth FILE aggregates count and sums over the association rows of
those child datasets; anything else answers the stored values; null sums
collapse to 0.  Stated independently of `resolve_bytes_length_events` to be
compared with it. -/
def resolve_bytes_length_events_spec (st : DBState) (did : DidRow) (depth : DIDType) :
    Int × Int × Int :=
  if did.did_type = DIDType.FILE then
    (did.bytes.getD 0, 1, did.events.getD 0)
  else if did.did_type = DIDType.DATASET ∧ depth = DIDType.FILE then
    let rows := assocsOfParent st.assocs did.scope did.name
    ((rows.map (fun a => a.bytes.getD 0)).sum, (rows.length : Int),
      (rows.map (fun a => a.events.getD 0)).sum)
  else if did.did_type = DIDType.CONTAINER ∧ depth = DIDType.DATASET then
    let childRows := (one_did_childs st.assocs did.scope did.name DIDType.DATASET).filterMap
      (fun k => (didsWithKey st k.1 k.2).head?)
    ((childRows.map (fun d => d.bytes.getD 0)).sum,
      (childRows.map (fun d => d.length.getD 0)).sum,
      (childRows.map (fun d => d.events.getD 0)).sum)
  else if did.did_type = DIDType.CONTAINER ∧ depth = DIDType.FILE then
    let rows := (one_did_childs st.assocs did.scope did.name DIDType.DATASET).flatMap
      (fun k => assocsOfParent st.assocs k.1 k.2)
    ((rows.map (fun a => a.bytes.getD 0)).sum, (rows.length : Int),
      (rows.map (fun a => a.events.getD 0)).sum)
  else
    (did.bytes.getD 0, did.length.getD 0, did.events.getD 0)

/-- The parent-of edge of the association DAG: `p` is a direct parent of `c`. -/
def assocEdge (assocs : List AssocRow) (p c : SN) : Prop :=
  ∃ a ∈ assocs, a.scope = p.1 ∧ a.name = p.2 ∧ a.child_scope = c.1 ∧ a.child_name = c.2

/-- The container-to-container sub-relation of the association DAG. -/
def ccEdge (assocs : List AssocRow) (p c : SN) : Prop :=
  ∃ a ∈ assocs, a.did_type = DIDType.CONTAINER ∧ a.child_type = DIDType.CONTAINER ∧
    a.scope = p.1 ∧ a.name = p.2 ∧ a.child_scope = c.1 ∧ a.child_name = c.2

/-- A relation is acyclic when no vertex reaches itself through a non-empty
path. -/
def AcyclicRel (E : SN → SN → Prop) : Prop := ∀ x, ¬ Relation.TransGen E x x

/-- The call-level safety relation between a parent row before and after a
detach: a NULL `length` stays NULL, a zero `length` stays zero, a nonnegative
`length` stays nonnegative and does not grow, and NULL `bytes`/`events` stay
NULL. -/
def AggregatesSafe (d d2 : DidRow) : Prop :=
  (d.length = none → d2.length = none) ∧
  (d.length = some 0 → d2.length = some 0) ∧
  (∀ n : Int, d.length = some n → 0 ≤ n → ∃ m, d2.length = some m ∧ 0 ≤ m ∧ m ≤ n) ∧
  (d.bytes = none → d2.bytes = none) ∧
  (d.events = none → d2.events = none)

/-- Fixture: a dataset parent with `length=2`, `bytes=30`, NULL `events`. -/
def dP : DidRow :=
  { mkDid "s" "P" DIDType.DATASET with length := some 2, bytes := some 30, events := none }

/-- Fixture state for a detach: `s:P` holds one file association caching
10 bytes and 5 events. -/
def stDetach : DBState := { emptyState with
  dids := [dP]
  assocs := [mkAssoc "s" "P" "s" "f1" DIDType.DATASET DIDType.FILE (some 10) (some 5)] }

/-- The state produced by detaching `s:f1` from `s:P` in the fixture. -/
def detachRes : DBState :=
  (detach_dids stDetach "s" "P" [("s", "f1")] 60).toOption.getD emptyState

/-- The fixture parent row after the detach: length and bytes decremented,
the NULL events untouched. -/
def dPafter : DidRow := { dP with length := some 1, bytes := some 20 }

/-- The saturation stages of the recursive parent walk (`satA assocs k n` is
the set reached after `n` expansion steps; `list_all_parent_dids` is the stage
`assocs.length`). -/
def satA (assocs : List AssocRow) (k : SN) (n : Nat) : Finset SN :=
  iterN (ancestorStep assocs) n (direct_parents assocs k).toFinset

/-- The keys that can ever appear in a parent set: the parent keys of the
association rows. -/
def parentsUniverse (assocs : List AssocRow) : Finset SN :=
  (assocs.map (fun a => (a.scope, a.name))).toFinset

/-! ## Helper lemmas -/

/-- A filter returning a singleton pins down every matching element. -/
theorem eq_of_filter_singleton {l : List α} {q : α → Bool} {a : α}
    (h : l.filter q = [a]) : ∀ x ∈ l, q x = true → x = a := by
  intro x hx hq
  have : x ∈ l.filter q := List.mem_filter.mpr ⟨hx, hq⟩
  rw [h] at this
  simpa using this

/-- A filter returning a singleton contains that element. -/
theorem mem_of_filter_singleton {l : List α} {q : α → Bool} {a : α}
    (h : l.filter q = [a]) : a ∈ l ∧ q a = true := by
  have : a ∈ l.filter q := by rw [h]; exact List.mem_singleton.mpr rfl
  exact ⟨(List.mem_filter.mp this).1, (List.mem_filter.mp this).2⟩

/-- SQL `SUM` with its NULL collapsed to 0 equals the plain sum of the values
with NULL read as 0. -/
theorem sqlSum_getD (l : List (Option Int)) :
    (sqlSum l).getD 0 = (l.map (fun o => o.getD 0)).sum := by
  have h : ∀ m : List (Option Int), (m.filterMap id).sum = (m.map (fun o => o.getD 0)).sum := by
    intro m
    induction m with
    | nil => rfl
    | cons x t ih =>
      cases x with
      | none => simpa using ih
      | some v => simp [List.filterMap_cons, ih]
  rw [← h]
  unfold sqlSum
  cases hm : l.filterMap id with
  | nil => simp [hm]
  | cons x t => simp

/-- Membership in the outer-join rows: a matched pair. -/
theorem joinRows_mem_of_match {st : DBState} {children : List FileArg} {dupOf : SN → Bool}
    {c : FileArg} {d : DidRow} (hc : c ∈ children) (hd : d ∈ didsWithKey st c.scope c.name) :
    (⟨c, some d, dupOf (c.scope, c.name)⟩ : JoinRow) ∈ joinRows st children dupOf := by
  unfold joinRows
  rw [List.mem_flatMap]
  refine ⟨c, hc, ?_⟩
  cases hk : didsWithKey st c.scope c.name with
  | nil => rw [hk] at hd; simp at hd
  | cons e es =>
    rw [hk] at hd
    simp only
    rw [List.mem_map]
    exact ⟨d, hd, rfl⟩

/-- A join row with no DID comes from a child that matches no DID row. -/
theorem joinRows_none_shape {st : DBState} {children : List FileArg} {dupOf : SN → Bool}
    {r : JoinRow} (hr : r ∈ joinRows st children dupOf) (hn : r.did = none) :
    r.file ∈ children ∧ didsWithKey st r.file.scope r.file.name = [] := by
  unfold joinRows at hr
  rw [List.mem_flatMap] at hr
  obtain ⟨c, hc, hr⟩ := hr
  revert hr
  cases hk : didsWithKey st c.scope c.name with
  | nil =>
    intro hr
    simp only [List.mem_singleton] at hr
    subst hr
    exact ⟨hc, hk⟩
  | cons e es =>
    intro hr
    simp only [List.mem_map] at hr
    obtain ⟨d, _, hd⟩ := hr
    rw [← hd] at hn
    simp at hn

/-- Every join row's DID, when present, matches some stored row. -/
theorem joinRows_some_shape {st : DBState} {children : List FileArg} {dupOf : SN → Bool}
    {r : JoinRow} {d : DidRow} (hr : r ∈ joinRows st children dupOf) (hd : r.did = some d) :
    r.file ∈ children ∧ d ∈ didsWithKey st r.file.scope r.file.name := by
  unfold joinRows at hr
  rw [List.mem_flatMap] at hr
  obtain ⟨c, hc, hr⟩ := hr
  revert hr
  cases hk : didsWithKey st c.scope c.name with
  | nil =>
    intro hr
    simp only [List.mem_singleton] at hr
    subst hr
    simp at hd
  | cons e es =>
    intro hr
    simp only [List.mem_map] at hr
    obtain ⟨x, hx, hxr⟩ := hr
    subst hxr
    simp only at hd
    cases hd
    exact ⟨hc, by rw [hk]; exact hx⟩

/-! ## C4 -/

/-- C4: the claim says every `list_expired_dids(worker=k, total_workers=N)`
call returns exactly its hash shard, the shards over `k ∈ {0..N-1}` being
pairwise disjoint and covering all unprotected expired DIDs.  On the SQLite
fallback the client-side filter is guarded by the truthiness of
`worker_number`, so worker 0 receives the full unfiltered stream: here, with
two expired unprotected DIDs whose md5 classes mod 2 are 0 (`s:a`) and 1
(`s:b`), the sqlite worker-0 call returns both rows even though `s:b` belongs
to worker 1's shard — the same call on a pushdown backend returns only
`s:a`. -/
theorem C4_sqlite_worker0_full_stream :
    list_expired_dids stExpired Dialect.sqlite md5Fix md5Fix (some 0) (some 2) none 100 =
      .ok [⟨"s", "a", DIDType.DATASET, some 0, false⟩,
        ⟨"s", "b", DIDType.DATASET, some 0, false⟩] ∧
    md5Fix "b" % 2 = 1 ∧
    list_expired_dids stExpired Dialect.postgresql md5Fix md5Fix (some 0) (some 2) none 100 =
      .ok [⟨"s", "a", DIDType.DATASET, some 0, false⟩] := ⟨rfl, rfl, rfl⟩

/-! ## C1 -/

/-- C1, counterexample: the claim says closing a CONTAINER stores the
aggregates of `resolve_bytes_length_events` at depth DATASET.  For the open
container `s:C` (whose child dataset's stored aggregates (100, 5, 7) differ
from its file sums), the close stores (30, 2, 3) — the depth-FILE resolution —
because `set_status` calls the resolver without a `dynamic_depth` argument and
the parameter defaults to FILE. -/
theorem C1_counterexample :
    didC.did_type = DIDType.CONTAINER ∧ didC.is_open = true ∧
    (set_status stClose "s" "C" false cfg0 50).map
        (fun st => (st.dids.filter (fun d => decide (d.scope = "s" ∧ d.name = "C"))).map
          (fun d => (d.bytes, d.length, d.events))) =
      .ok [(some 30, some 2, some 3)] ∧
    resolve_bytes_length_events stClose didC DIDType.DATASET = (100, 5, 7) := ⟨rfl, rfl, rfl, rfl⟩

/-! ## C2 -/

/-- C2, counterexample: the claim says a container already holding DATASET
children rejects a later CONTAINER attach with UnsupportedOperation.  The
container `s:C` holds the dataset `s:D`, yet attaching the container `s:C2`
to it succeeds, leaving `s:C` with one DATASET child and one CONTAINER child:
the mixed-type check only compares the children of a single call's batch. -/
theorem C2_counterexample :
    (assocsOfParent stMix.assocs "s" "C").map (fun a => a.child_type) = [DIDType.DATASET] ∧
    (add_collections_to_container stMix didC [mkArg "s" "C2"] "root" false 50).map
        (fun st => (assocsOfParent st.assocs "s" "C").map (fun a => a.child_type)) =
      .ok [DIDType.DATASET, DIDType.CONTAINER] := ⟨rfl, rfl⟩

/-- A container-attach check loop that starts from an already observed child
type ends with that child type. -/
theorem collCheckLoop_ok_some {assocs : List AssocRow} {pk : SN} {ig : Bool} :
    ∀ {rows : List JoinRow} {t : DIDType} {dups : List SN} {ct' : Option DIDType}
    {dups' : List SN},
    collCheckLoop assocs pk ig rows (some t) dups = .ok (ct', dups') → ct' = some t := by
  intro rows
  induction rows with
  | nil =>
    intro t dups ct' dups' h
    simp [collCheckLoop] at h
    exact h.1.symm
  | cons r rest ih =>
    intro t dups ct' dups' h
    unfold collCheckLoop at h
    cases hd : r.did with
    | none => rw [hd] at h; simp at h
    | some d =>
      rw [hd] at h
      dsimp only at h
      split_ifs at h with h1 h2 h3
      · exact ih h
      · exact ih h

/-- The container-attach check loop only fails with UnsupportedOperation or
because some join row matched no DID. -/
theorem collCheckLoop_error_shape {assocs : List AssocRow} {pk : SN} {ig : Bool} :
    ∀ {rows : List JoinRow} {ct : Option DIDType} {dups : List SN} {e : RucioErr},
    collCheckLoop assocs pk ig rows ct dups = .error e →
    e = .UnsupportedOperation ∨ ∃ r ∈ rows, r.did = none := by
  intro rows
  induction rows with
  | nil => intro ct dups e h; simp [collCheckLoop] at h
  | cons r rest ih =>
    intro ct dups e h
    unfold collCheckLoop at h
    cases hd : r.did with
    | none =>
      rw [hd] at h
      right
      exact ⟨r, List.mem_cons_self r rest, hd⟩
    | some d =>
      rw [hd] at h
      dsimp only at h
      split_ifs at h with h1 h2 h3
      · left; cases h; rfl
      · left; cases h; rfl
      · left; cases h; rfl
      · rcases ih h with he | ⟨r', hr', hn⟩
        · exact Or.inl he
        · exact Or.inr ⟨r', List.mem_cons_of_mem r hr', hn⟩
      · rcases ih h with he | ⟨r', hr', hn⟩
        · exact Or.inl he
        · exact Or.inr ⟨r', List.mem_cons_of_mem r hr', hn⟩

/-- When the container-attach check loop succeeds, every matched DID row of
the batch carries the final observed child type: one call's children all share
one type. -/
theorem collCheckLoop_ok_type {assocs : List AssocRow} {pk : SN} {ig : Bool} :
    ∀ {rows : List JoinRow} {ct : Option DIDType} {dups : List SN} {ct' : Option DIDType}
    {dups' : List SN},
    collCheckLoop assocs pk ig rows ct dups = .ok (ct', dups') →
    ∀ r ∈ rows, ∀ d, r.did = some d → ct' = some d.did_type := by
  intro rows
  induction rows with
  | nil => intro ct dups ct' dups' h r hr; simp at hr
  | cons r0 rest ih =>
    intro ct dups ct' dups' h r hr d hd
    unfold collCheckLoop at h
    cases hd0 : r0.did with
    | none => rw [hd0] at h; simp at h
    | some d0 =>
      rw [hd0] at h
      dsimp only at h
      split_ifs at h with h1 h2 h3 h4
      · have hm := not_ne_iff.mp h2
        rcases List.mem_cons.mp hr with h0 | hmem
        · subst h0
          rw [hd0] at hd
          cases hd
          rw [hm] at h
          exact collCheckLoop_ok_some h
        · exact ih h r hmem d hd
      · have hm := not_ne_iff.mp h2
        rcases List.mem_cons.mp hr with h0 | hmem
        · subst h0
          rw [hd0] at hd
          cases hd
          rw [hm] at h
          exact collCheckLoop_ok_some h
        · exact ih h r hmem d hd

/-- C2, amended: the mixed-type rejection is per call, not per container
state.  Whenever one `__add_collections_to_container` batch holds two
children whose existing DID rows have different types, the call fails with
UnsupportedOperation; the container's previously attached children are not
consulted (see the counterexample). -/
theorem C2_mixed_batch_rejected (st : DBState) (parent : DidRow) (children : List FileArg)
    (account : String) (ig : Bool) (now : Int)
    (hex : ∀ c ∈ children, ∃ d ∈ st.dids, d.scope = c.scope ∧ d.name = c.name)
    (c1 c2 : FileArg) (hc1 : c1 ∈ children) (hc2 : c2 ∈ children)
    (d1 d2 : DidRow)
    (hm1 : d1 ∈ didsWithKey st c1.scope c1.name)
    (hm2 : d2 ∈ didsWithKey st c2.scope c2.name)
    (hne : d1.did_type ≠ d2.did_type) :
    add_collections_to_container st parent children account ig now =
      .error .UnsupportedOperation := by
  unfold add_collections_to_container
  by_cases hself : (children.map (fun c => (c.scope, c.name))).contains (parent.scope, parent.name)
  · rw [if_pos hself]
  · rw [if_neg hself]
    dsimp only
    set dupOf := fun k => ig && contentExists st.assocs (parent.scope, parent.name) k with hdup
    cases hloop : collCheckLoop st.assocs (parent.scope, parent.name) ig
        (joinRows st children dupOf) none [] with
    | error e =>
      rcases collCheckLoop_error_shape hloop with he | ⟨r, hr, hn⟩
      · subst he; rfl
      · exfalso
        obtain ⟨hcf, hempty⟩ := joinRows_none_shape hr hn
        obtain ⟨d, hd, hs, hn2⟩ := hex _ hcf
        have : d ∈ didsWithKey st r.file.scope r.file.name :=
          List.mem_filter.mpr ⟨hd, by simp [hs, hn2]⟩
        rw [hempty] at this
        simp at this
    | ok p =>
      exfalso
      obtain ⟨ct', dups'⟩ := p
      have h1 := collCheckLoop_ok_type hloop _ (joinRows_mem_of_match hc1 hm1) d1 rfl
      have h2 := collCheckLoop_ok_type hloop _ (joinRows_mem_of_match hc2 hm2) d2 rfl
      rw [h1] at h2
      exact hne (Option.some.inj h2)

/-- C2, witness: the amended theorem applied to the one-call batch
`[s:C2 (container), s:D (dataset)]` under `s:C`. -/
theorem C2_mixed_batch_rejected_witness :
    (∀ c ∈ [mkArg "s" "C2", mkArg "s" "D"], ∃ d ∈ stMix.dids,
      d.scope = c.scope ∧ d.name = c.name) ∧
    add_collections_to_container stMix didC [mkArg "s" "C2", mkArg "s" "D"] "root" false 50 =
      .error .UnsupportedOperation :=
  ⟨by decide, C2_mixed_batch_rejected stMix didC _ "root" false 50 (by decide)
    (mkArg "s" "C2") (mkArg "s" "D") (by decide) (by decide)
    (mkDid "s" "C2" DIDType.CONTAINER) didD (by decide) (by decide) (by decide)⟩

/-- Rows updated by the closing update of `set_status`: every row carrying the
key ends closed with the resolved aggregates, provided every key row passes
the closing filter. -/
theorem close_rows_prop {l : List DidRow} {scope name : String} {now B L E : Int}
    (hu : ∀ x ∈ l, decide (x.scope = scope ∧ x.name = name) = true →
      closePred scope name x = true) :
    ∀ e ∈ l.map (fun x => if closePred scope name x then
        { x with
          is_open := false, closed_at := some now, bytes := some B,
          length := some L, events := some E } else x),
      e.scope = scope → e.name = name →
      e.is_open = false ∧ e.closed_at = some now ∧ e.bytes = some B ∧
        e.length = some L ∧ e.events = some E := by
  intro e he hes hen
  obtain ⟨x, hx, hxe⟩ := List.mem_map.mp he
  by_cases hcp : closePred scope name x = true
  · rw [if_pos hcp] at hxe
    subst hxe
    exact ⟨rfl, rfl, rfl, rfl, rfl⟩
  · rw [if_neg hcp] at hxe
    subst hxe
    exact absurd (hu x hx (by simp [hes, hen])) hcp

/-- Dataset-lock rows after the lock update of `set_status`: every row
carrying the key ends with the resolved `(length, bytes)`. -/
theorem close_locks_prop {locks : List DatasetLockRow} {scope name : String} {B L : Int} :
    ∀ lk ∈ locks.map (fun l => if decide (l.scope = scope ∧ l.name = name) = true then
        { l with length := some L, bytes := some B } else l),
      lk.scope = scope → lk.name = name → lk.length = some L ∧ lk.bytes = some B := by
  intro lk hlk hs hn
  obtain ⟨x, hx, hxl⟩ := List.mem_map.mp hlk
  by_cases hc : decide (x.scope = scope ∧ x.name = name) = true
  · rw [if_pos hc] at hxl
    subst hxl
    exact ⟨rfl, rfl⟩
  · rw [if_neg hc] at hxl
    subst hxl
    exact absurd (by simp [hs, hn]) hc

/-- C1, amended: closing an existing open DATASET or CONTAINER sets
`is_open=false` and `closed_at`, stores `(bytes, length, events)` equal to
`resolve_bytes_length_events` computed at depth FILE — for datasets and for
containers alike, since `set_status` passes no `dynamic_depth` and the
parameter defaults to FILE — writes the same `(length, bytes)` into every
DatasetLock row of the DID, and emits a `CLOSE` message carrying the final
values.  (The claim's depth-DATASET resolution for containers is refuted by
the counterexample.) -/
theorem C1_close_stores_file_depth (st : DBState) (scope name : String) (cfg : Config) (now : Int) (d : DidRow)
    (hkey : didsWithKey st scope name = [d])
    (hty : d.did_type = DIDType.DATASET ∨ d.did_type = DIDType.CONTAINER)
    (hopen : d.is_open = true) :
    ∃ st', set_status st scope name false cfg now = .ok st' ∧
      (∀ e ∈ st'.dids, e.scope = scope → e.name = name →
        e.is_open = false ∧ e.closed_at = some now ∧
        e.bytes = some (resolve_bytes_length_events st d DIDType.FILE).1 ∧
        e.length = some (resolve_bytes_length_events st d DIDType.FILE).2.1 ∧
        e.events = some (resolve_bytes_length_events st d DIDType.FILE).2.2) ∧
      (∀ l ∈ st'.dataset_locks, l.scope = scope → l.name = name →
        l.length = some (resolve_bytes_length_events st d DIDType.FILE).2.1 ∧
        l.bytes = some (resolve_bytes_length_events st d DIDType.FILE).1) ∧
      Message.CLOSE scope name (resolve_bytes_length_events st d DIDType.FILE).1
        (resolve_bytes_length_events st d DIDType.FILE).2.1
        (resolve_bytes_length_events st d DIDType.FILE).2.2 ∈ st'.messages := by
  have hmem := mem_of_filter_singleton hkey
  have hd_mem : d ∈ st.dids := hmem.1
  obtain ⟨hds, hdn⟩ : d.scope = scope ∧ d.name = name := by
    have := hmem.2
    simpa [didsWithKey] using this
  have hdcp : closePred scope name d = true := by
    rcases hty with h | h <;> simp [closePred, hds, hdn, hopen, h]
  have huniq : ∀ x ∈ st.dids, decide (x.scope = scope ∧ x.name = name) = true →
      closePred scope name x = true := by
    intro x hx hq
    have : x = d := eq_of_filter_singleton hkey x hx hq
    rw [this]
    exact hdcp
  unfold set_status
  simp only [Bool.false_eq_true, if_false, hkey]
  dsimp only [getOne]
  cases hre : cfg.reevaluate_dids_at_close with
  | false =>
    simp only [Bool.false_eq_true, if_false]
    dsimp only
    have hcount : ¬((List.filter (closePred scope name) st.dids).length = 0) := by
      have : d ∈ List.filter (closePred scope name) st.dids := List.mem_filter.mpr ⟨hd_mem, hdcp⟩
      intro h0
      rw [List.length_eq_zero] at h0
      rw [h0] at this
      simp at this
    rw [if_neg hcount]
    refine ⟨_, rfl, ?_, ?_, ?_⟩
    · exact fun e he => close_rows_prop huniq e he
    · exact fun l hl => close_locks_prop l hl
    · dsimp only [updateDids]
      simp
  | true =>
    simp only [if_true]
    dsimp only [set_new_dids_single, didsWithKey]
    have hfilter : List.filter (fun x => decide (x.scope = scope ∧ x.name = name)) st.dids
        = [d] := hkey
    rw [hfilter]
    simp only [List.isEmpty_cons, Bool.false_eq_true, if_false]
    dsimp only [updateDids]
    set g := fun (x : DidRow) => if decide (x.scope = scope ∧ x.name = name) = true then
      ({ x with is_new := true } : DidRow) else x with hg
    have hcpg : ∀ x ∈ st.dids.map g, decide (x.scope = scope ∧ x.name = name) = true →
        closePred scope name x = true := by
      intro y hy hq
      obtain ⟨x, hx, rfl⟩ := List.mem_map.mp hy
      by_cases hxq : decide (x.scope = scope ∧ x.name = name) = true
      · have hxd : x = d := eq_of_filter_singleton hkey x hx hxq
        subst hxd
        rw [hg]
        dsimp only
        rw [if_pos hxq]
        rcases hty with h | h <;> simp [closePred, hds, hdn, hopen, h]
      · rw [hg] at hq
        dsimp only at hq
        rw [if_neg hxq] at hq
        exact absurd hq hxq
    have hgd_mem : g d ∈ st.dids.map g := List.mem_map_of_mem g hd_mem
    have hgd_key : decide ((g d).scope = scope ∧ (g d).name = name) = true := by
      rw [hg]
      dsimp only
      by_cases hxq : decide (d.scope = scope ∧ d.name = name) = true
      · rw [if_pos hxq]
        simp [hds, hdn]
      · rw [if_neg hxq]
        simp [hds, hdn]
    have hcount : ¬((List.filter (closePred scope name) (st.dids.map g)).length = 0) := by
      have hm : g d ∈ List.filter (closePred scope name) (st.dids.map g) :=
        List.mem_filter.mpr ⟨hgd_mem, hcpg (g d) hgd_mem hgd_key⟩
      intro h0
      rw [List.length_eq_zero] at h0
      rw [h0] at hm
      simp at hm
    rw [if_neg hcount]
    refine ⟨_, rfl, ?_, ?_, ?_⟩
    · exact fun e he => close_rows_prop hcpg e he
    · exact fun l hl => close_locks_prop l hl
    · dsimp only [updateDids]
      simp


/-- C1, witness: the amended theorem applied to closing the container `s:C`
of the fixture state. -/
theorem C1_close_stores_file_depth_witness :
    (didsWithKey stClose "s" "C" = [didC] ∧
      (didC.did_type = DIDType.DATASET ∨ didC.did_type = DIDType.CONTAINER) ∧
      didC.is_open = true) ∧
    (∃ st', set_status stClose "s" "C" false cfg0 50 = .ok st' ∧
      (∀ e ∈ st'.dids, e.scope = "s" → e.name = "C" →
        e.is_open = false ∧ e.closed_at = some 50 ∧
        e.bytes = some (resolve_bytes_length_events stClose didC DIDType.FILE).1 ∧
        e.length = some (resolve_bytes_length_events stClose didC DIDType.FILE).2.1 ∧
        e.events = some (resolve_bytes_length_events stClose didC DIDType.FILE).2.2) ∧
      (∀ l ∈ st'.dataset_locks, l.scope = "s" → l.name = "C" →
        l.length = some (resolve_bytes_length_events stClose didC DIDType.FILE).2.1 ∧
        l.bytes = some (resolve_bytes_length_events stClose didC DIDType.FILE).1) ∧
      Message.CLOSE "s" "C" (resolve_bytes_length_events stClose didC DIDType.FILE).1
        (resolve_bytes_length_events stClose didC DIDType.FILE).2.1
        (resolve_bytes_length_events stClose didC DIDType.FILE).2.2 ∈ st'.messages) :=
  ⟨⟨rfl, Or.inr rfl, rfl⟩,
    C1_close_stores_file_depth stClose "s" "C" cfg0 50 didC rfl (Or.inr rfl) rfl⟩

/-- The dataset-attach check loop only fails with FileConsistencyMismatch or
because some join row matched no DID, a LOST file, or a non-FILE DID. -/
theorem dsCheckLoop_error_shape {parent : DidRow} {ig : Bool} {now : Int} :
    ∀ {rows : List JoinRow} {acc : List AssocRow} {arch : Bool} {e : RucioErr},
    dsCheckLoop parent ig now rows acc arch = .error e →
    e = .FileConsistencyMismatch ∨
      ∃ r ∈ rows, r.did = none ∨ ∃ d, r.did = some d ∧
        (d.availability = DIDAvailability.LOST ∨ d.did_type ≠ DIDType.FILE) := by
  intro rows
  induction rows with
  | nil => intro acc arch e h; simp [dsCheckLoop] at h
  | cons r rest ih =>
    intro acc arch e h
    unfold dsCheckLoop at h
    cases hd : r.did with
    | none =>
      rw [hd] at h
      exact Or.inr ⟨r, List.mem_cons_self r rest, Or.inl hd⟩
    | some d =>
      rw [hd] at h
      dsimp only at h
      split_ifs at h with h1 h2 h3 h4 h5 h6 h7
      · exact Or.inr ⟨r, List.mem_cons_self r rest, Or.inr ⟨d, hd, Or.inl h1⟩⟩
      · exact Or.inr ⟨r, List.mem_cons_self r rest, Or.inr ⟨d, hd, Or.inr h2⟩⟩
      · left; cases h; rfl
      · left; cases h; rfl
      · left; cases h; rfl
      all_goals
        rcases ih h with he | ⟨r', hr', hsh⟩
        · exact Or.inl he
        · exact Or.inr ⟨r', List.mem_cons_of_mem r hr', hsh⟩

/-- When the dataset-attach check loop succeeds, no supplied
`bytes`/`adler32`/`md5` value differed from the matched DID row's stored
value. -/
theorem dsCheckLoop_ok_no_mismatch {parent : DidRow} {ig : Bool} {now : Int} :
    ∀ {rows : List JoinRow} {acc : List AssocRow} {arch : Bool} {out : List AssocRow × Bool},
    dsCheckLoop parent ig now rows acc arch = .ok out →
    ∀ r ∈ rows, ∀ d, r.did = some d →
      ¬(r.file.bytes.isSome ∧ pyStrI r.file.bytes ≠ pyStrI d.bytes) ∧
      ¬(r.file.adler32.isSome ∧ pyStrS r.file.adler32 ≠ pyStrS d.adler32) ∧
      ¬(r.file.md5.isSome ∧ pyStrS r.file.md5 ≠ pyStrS d.md5) := by
  intro rows
  induction rows with
  | nil => intro acc arch out h r hr; simp at hr
  | cons r0 rest ih =>
    intro acc arch out h r hr d hd
    unfold dsCheckLoop at h
    cases hd0 : r0.did with
    | none => rw [hd0] at h; simp at h
    | some d0 =>
      rw [hd0] at h
      dsimp only at h
      split_ifs at h with h1 h2 h3 h4 h5 h6 h7
      all_goals
        rcases List.mem_cons.mp hr with h0 | hmem
        · subst h0
          rw [hd0] at hd
          cases hd
          exact ⟨h3, h4, h5⟩
        · exact ih h r hmem d hd



/-- C6: attaching files to a DATASET parent fails with
FileConsistencyMismatch whenever the caller supplies a `bytes`, `adler32` or
`md5` value that differs (as Python strings) from the child FILE's stored
value — granted the batch's children all exist as non-LOST FILEs, so that no
earlier per-row check preempts the comparison.  The error return models the
transaction rollback: no association row of the batch is inserted. -/
theorem C6_mismatch_fails (st : DBState) (parent : DidRow) (files : List FileArg)
    (account : String) (rse_id : Option String) (ig : Bool) (now : Int)
    (hex : ∀ c ∈ files, ∃ d ∈ st.dids, d.scope = c.scope ∧ d.name = c.name)
    (hfile : ∀ c ∈ files, ∀ d ∈ didsWithKey st c.scope c.name,
      d.did_type = DIDType.FILE ∧ d.availability ≠ DIDAvailability.LOST)
    (c : FileArg) (hc : c ∈ files) (d : DidRow) (hm : d ∈ didsWithKey st c.scope c.name)
    (hmis : (c.bytes.isSome ∧ pyStrI c.bytes ≠ pyStrI d.bytes) ∨
      (c.adler32.isSome ∧ pyStrS c.adler32 ≠ pyStrS d.adler32) ∨
      (c.md5.isSome ∧ pyStrS c.md5 ≠ pyStrS d.md5)) :
    add_files_to_dataset st parent files account rse_id ig now =
      .error .FileConsistencyMismatch := by
  unfold add_files_to_dataset
  dsimp only
  set dupOf := fun k => ig && contentExists st.assocs (parent.scope, parent.name) k with hdup
  cases hloop : dsCheckLoop parent ig now (joinRows st files dupOf) [] parent.is_archive with
  | error e =>
    rcases dsCheckLoop_error_shape hloop with he | ⟨r, hr, hsh⟩
    · subst he; rfl
    · exfalso
      rcases hsh with hn | ⟨d', hd', hbad⟩
      · obtain ⟨hcf, hempty⟩ := joinRows_none_shape hr hn
        obtain ⟨dd, hdd, hs2, hn2⟩ := hex _ hcf
        have : dd ∈ didsWithKey st r.file.scope r.file.name :=
          List.mem_filter.mpr ⟨hdd, by simp [hs2, hn2]⟩
        rw [hempty] at this
        simp at this
      · obtain ⟨hcf, hdk⟩ := joinRows_some_shape hr hd'
        have := hfile _ hcf d' hdk
        rcases hbad with hl | ht
        · exact this.2 hl
        · exact ht this.1
  | ok p =>
    exfalso
    have hrow := @joinRows_mem_of_match st files dupOf c d hc hm
    have := dsCheckLoop_ok_no_mismatch hloop _ hrow d rfl
    rcases hmis with h | h | h
    · exact this.1 h
    · exact this.2.1 h
    · exact this.2.2 h

/-- C6, witness: supplying bytes=99 for the stored 10-byte file `s:f1`. -/
theorem C6_mismatch_fails_witness :
    ((∀ c ∈ [{ mkArg "s" "f1" with bytes := some 99 }], ∃ d ∈ stFiles.dids,
        d.scope = c.scope ∧ d.name = c.name) ∧
      (∀ c ∈ [{ mkArg "s" "f1" with bytes := some 99 }],
        ∀ d ∈ didsWithKey stFiles c.scope c.name,
          d.did_type = DIDType.FILE ∧ d.availability ≠ DIDAvailability.LOST)) ∧
    add_files_to_dataset stFiles didDS [{ mkArg "s" "f1" with bytes := some 99 }]
        "root" none false 50 = .error .FileConsistencyMismatch :=
  ⟨⟨by decide, by decide⟩,
    C6_mismatch_fails stFiles didDS _ "root" none false 50 (by decide) (by decide)
      { mkArg "s" "f1" with bytes := some 99 } (by decide) didF1 (by decide)
      (Or.inl (by decide))⟩


/-- `AggregatesSafe` is reflexive. -/
theorem aggregatesSafe_refl (d : DidRow) : AggregatesSafe d d :=
  ⟨fun h => h, fun h => h, fun n h h0 => ⟨n, h, h0, le_refl n⟩, fun h => h, fun h => h⟩

/-- `AggregatesSafe` composes. -/
theorem aggregatesSafe_trans {a b c : DidRow} (h1 : AggregatesSafe a b)
    (h2 : AggregatesSafe b c) : AggregatesSafe a c := by
  obtain ⟨n1, z1, m1, b1, e1⟩ := h1
  obtain ⟨n2, z2, m2, b2, e2⟩ := h2
  refine ⟨fun h => n2 (n1 h), fun h => z2 (z1 h), ?_, fun h => b2 (b1 h), fun h => e2 (e1 h)⟩
  intro n hn h0
  obtain ⟨m, hm, hm0, hmn⟩ := m1 n hn h0
  obtain ⟨k, hk, hk0, hkm⟩ := m2 m hm hm0
  exact ⟨k, hk, hk0, le_trans hkm hmn⟩

/-- Field characterization of the per-edge aggregate update of
`detach_dids`. -/
theorem detachUpdateDid_fields (did : DidRow) (a : AssocRow) :
    (detachUpdateDid did a).length =
      (if truthyI did.length then did.length.map (· - 1) else did.length) ∧
    (detachUpdateDid did a).bytes =
      (if truthyI did.bytes && truthyI a.bytes then
        some (did.bytes.getD 0 - a.bytes.getD 0) else did.bytes) ∧
    (detachUpdateDid did a).events =
      (if truthyI did.events && truthyI a.events then
        some (did.events.getD 0 - a.events.getD 0) else did.events) := by
  by_cases h1 : truthyI did.length = true <;>
    by_cases h2 : (truthyI did.bytes && truthyI a.bytes) = true <;>
      by_cases h3 : (truthyI did.events && truthyI a.events) = true <;>
        simp [detachUpdateDid, h1, h2, h3]


/-- One aggregate-update step is safe for the parent row. -/
theorem detachUpdateDid_safe (did : DidRow) (a : AssocRow) :
    AggregatesSafe did (detachUpdateDid did a) := by
  obtain ⟨hl, hb, he⟩ := detachUpdateDid_fields did a
  refine ⟨?_, ?_, ?_, ?_, ?_⟩
  · intro h
    rw [hl, h]
    simp [truthyI]
  · intro h
    rw [hl, h]
    simp [truthyI]
  · intro n hn h0
    rw [hl, hn]
    by_cases hz : n = 0
    · subst hz
      exact ⟨0, by simp [truthyI], le_refl 0, le_refl 0⟩
    · have ht : truthyI (some n) = true := by simp [truthyI, hz]
      rw [if_pos ht]
      exact ⟨n - 1, by simp, by omega, by omega⟩
  · intro h
    rw [hb, h]
    simp [truthyI]
  · intro h
    rw [he, h]
    simp [truthyI]

/-- One aggregate-update step changes `bytes` (resp. `events`) only when both
the stored and the cached association value are non-NULL. -/
theorem detachUpdateDid_change_props (did : DidRow) (a : AssocRow) :
    ((detachUpdateDid did a).bytes ≠ did.bytes → did.bytes ≠ none ∧ a.bytes ≠ none) ∧
    ((detachUpdateDid did a).events ≠ did.events → did.events ≠ none ∧ a.events ≠ none) := by
  obtain ⟨hl, hb, he⟩ := detachUpdateDid_fields did a
  constructor
  · intro hchg
    rw [hb] at hchg
    by_cases hc : (truthyI did.bytes && truthyI a.bytes) = true
    · rw [Bool.and_eq_true] at hc
      constructor
      · intro h0; rw [h0] at hc; simp [truthyI] at hc
      · intro h0; rw [h0] at hc; simp [truthyI] at hc
    · rw [if_neg hc] at hchg
      exact absurd rfl hchg
  · intro hchg
    rw [he] at hchg
    by_cases hc : (truthyI did.events && truthyI a.events) = true
    · rw [Bool.and_eq_true] at hc
      constructor
      · intro h0; rw [h0] at hc; simp [truthyI] at hc
      · intro h0; rw [h0] at hc; simp [truthyI] at hc
    · rw [if_neg hc] at hchg
      exact absurd rfl hchg

/-- The whole per-child loop of `detach_dids` keeps the parent row safe. -/
theorem detachChildrenLoop_safe {scope name : String} {now : Int} :
    ∀ {children : List SN} {st : DBState} {did : DidRow} {out : DBState × DidRow},
    detachChildrenLoop scope name now st did children = .ok out →
    AggregatesSafe did out.2 := by
  intro children
  induction children with
  | nil =>
    intro st did out h
    simp only [detachChildrenLoop] at h
    cases h
    exact aggregatesSafe_refl did
  | cons c rest ih =>
    intro st did out h
    unfold detachChildrenLoop at h
    by_cases h1 : (scope = c.1 ∧ name = c.2)
    · rw [if_pos h1] at h
      simp at h
    · rw [if_neg h1] at h
      cases hm : (assocsOfParent st.assocs scope name).filter
          (fun a => decide (a.child_scope = c.1 ∧ a.child_name = c.2)) with
      | nil => rw [hm] at h; simp at h
      | cons associ tl =>
        rw [hm] at h
        dsimp only at h
        exact aggregatesSafe_trans (detachUpdateDid_safe did associ) (ih h)


/-- C10: the aggregate decrements of `detach_dids` are guarded.  Per removed
edge, a NULL or zero `length` is left unchanged (so the counter is never
driven negative and NULL never becomes a number) and `bytes` (resp. `events`)
changes only when both the parent's stored value and the association's cached
value are non-NULL; consequently, over a whole successful call, the parent row
satisfies `AggregatesSafe` against its initial value. -/
theorem C10_detach_aggregate_guards :
    (∀ (did : DidRow) (associ : AssocRow),
      (did.length = none → (detachUpdateDid did associ).length = none) ∧
      (did.length = some 0 → (detachUpdateDid did associ).length = some 0) ∧
      (∀ n : Int, did.length = some n → 0 ≤ n →
        ∃ m, (detachUpdateDid did associ).length = some m ∧ 0 ≤ m ∧ m ≤ n) ∧
      ((detachUpdateDid did associ).bytes ≠ did.bytes →
        did.bytes ≠ none ∧ associ.bytes ≠ none) ∧
      ((detachUpdateDid did associ).events ≠ did.events →
        did.events ≠ none ∧ associ.events ≠ none)) ∧
    (∀ (st : DBState) (scope name : String) (children : List SN) (now : Int)
      (st2 : DBState) (d : DidRow),
      detach_dids st scope name children now = .ok st2 →
      st.dids.filter (detachParentPred scope name) = [d] →
      ∀ d2 ∈ st2.dids, detachParentPred scope name d2 = true → AggregatesSafe d d2) := by
  constructor
  · intro did associ
    obtain ⟨hn, hz, hm, _, _⟩ := detachUpdateDid_safe did associ
    obtain ⟨hbc, hec⟩ := detachUpdateDid_change_props did associ
    exact ⟨hn, hz, hm, hbc, hec⟩
  · intro st scope name children now st2 d hok hfilter d2 hd2 hpred
    unfold detach_dids at hok
    rw [hfilter] at hok
    dsimp only [getOne] at hok
    split_ifs at hok with hemp
    cases hloop : detachChildrenLoop scope name now
        { st with updated_dids := st.updated_dids ++ [⟨scope, name, ReEvaluation.DETACH⟩] }
        d children with
    | error e => rw [hloop] at hok; simp at hok
    | ok out =>
      rw [hloop] at hok
      dsimp only at hok
      obtain ⟨stL, didL⟩ := out
      cases hok
      dsimp only at hd2
      obtain ⟨x, hx, hxe⟩ := List.mem_map.mp hd2
      by_cases hpx : detachParentPred scope name x = true
      · rw [if_pos hpx] at hxe
        subst hxe
        exact detachChildrenLoop_safe hloop
      · rw [if_neg hpx] at hxe
        subst hxe
        exact absurd hpred hpx

/-- C10, witness: detaching `s:f1` from the fixture parent `s:P`
(length 2 -> 1, bytes 30 -> 20, NULL events untouched). -/
theorem C10_detach_aggregate_guards_witness :
    detach_dids stDetach "s" "P" [("s", "f1")] 60 = .ok detachRes ∧
    stDetach.dids.filter (detachParentPred "s" "P") = [dP] ∧
    dPafter ∈ detachRes.dids ∧ detachParentPred "s" "P" dPafter = true ∧
    AggregatesSafe dP dPafter :=
  ⟨rfl, rfl, by decide, rfl,
    C10_detach_aggregate_guards.2 stDetach "s" "P" [("s", "f1")] 60 detachRes dP rfl rfl
      dPafter (by decide) rfl⟩

/-- A list of rows with pairwise distinct `(scope, name)` keys (spec
invariant 1) has at most one row per key. -/
theorem filter_key_len_le_one {l : List DidRow}
    (h : (l.map (fun d => (d.scope, d.name))).Nodup) (s n : String) :
    (l.filter (fun d => decide (d.scope = s ∧ d.name = n))).length ≤ 1 := by
  induction l with
  | nil => simp
  | cons d t ih =>
    rw [List.map_cons, List.nodup_cons] at h
    obtain ⟨hnotin, hnd⟩ := h
    rw [List.filter_cons]
    by_cases hd : (decide (d.scope = s ∧ d.name = n)) = true
    · rw [if_pos hd]
      have ht : t.filter (fun x => decide (x.scope = s ∧ x.name = n)) = [] := by
        rw [List.filter_eq_nil_iff]
        intro x hx hq
        apply hnotin
        rw [List.mem_map]
        have h1 : x.scope = s ∧ x.name = n := of_decide_eq_true hq
        have h2 : d.scope = s ∧ d.name = n := of_decide_eq_true hd
        refine ⟨x, hx, ?_⟩
        rw [h1.1, h1.2, h2.1, h2.2]
      rw [ht]
      simp
    · rw [if_neg hd]
      exact ih hnd

/-- Key uniqueness transported to `didsWithKey`. -/
theorem didsWithKey_len_le_one {st : DBState}
    (h : (st.dids.map (fun d => (d.scope, d.name))).Nodup) :
    ∀ s n : String, (didsWithKey st s n).length ≤ 1 :=
  fun s n => filter_key_len_le_one h s n

/-- A flat map over at-most-singleton lists is the filter map of their
heads (the inner join against a key-unique table). -/
theorem flatMap_eq_filterMap_head {l : List SN} {f : SN → List DidRow}
    (h : ∀ k ∈ l, (f k).length ≤ 1) :
    l.flatMap f = l.filterMap (fun k => (f k).head?) := by
  induction l with
  | nil => rfl
  | cons k t ih =>
    rw [List.flatMap_cons, List.filterMap_cons]
    cases hf : f k with
    | nil =>
      simp only [hf, List.head?_nil, List.nil_append]
      exact ih (fun x hx => h x (List.mem_cons_of_mem k hx))
    | cons a tl =>
      cases tl with
      | nil =>
        simp only [hf, List.head?_cons, List.singleton_append, List.cons_append, List.nil_append]
        rw [ih (fun x hx => h x (List.mem_cons_of_mem k hx))]
      | cons b tl2 =>
        exfalso
        have := h k (List.mem_cons_self k t)
        rw [hf] at this
        simp at this

/-- C3: for every DID and requested depth,
`__resolve_bytes_length_events_did` returns exactly what the claim describes —
`(bytes or 0, 1, events or 0)` for a FILE; count and sums over the dataset's
association rows for a DATASET at depth FILE; the sums of the stored
`(length, bytes, events)` of the recursively resolved child datasets for a
CONTAINER at depth DATASET; count and sums over those datasets' association
rows for a CONTAINER at depth FILE; the stored values otherwise; with every
null sum collapsed to 0.  Stated against the independently written
`resolve_bytes_length_events_spec`, under the catalog key-uniqueness
invariant. -/
theorem C3_resolve_matches_spec (st : DBState) (did : DidRow) (depth : DIDType)
    (hnodup : (st.dids.map (fun d => (d.scope, d.name))).Nodup) :
    resolve_bytes_length_events st did depth =
      resolve_bytes_length_events_spec st did depth := by
  have huniq := didsWithKey_len_le_one hnodup
  have hjoin : ∀ l : List SN,
      l.flatMap (fun k => didsWithKey st k.1 k.2) =
        l.filterMap (fun k => (didsWithKey st k.1 k.2).head?) :=
    fun l => flatMap_eq_filterMap_head (fun k _ => huniq k.1 k.2)
  cases htd : did.did_type <;> cases hdp : depth <;>
    simp only [resolve_bytes_length_events, resolve_bytes_length_events_spec, htd, hdp] <;>
      simp [sqlSum_getD, hjoin, Function.comp_def]



/-- C3, witness: the fixture container resolved at depth DATASET. -/
theorem C3_resolve_matches_spec_witness :
    (stClose.dids.map (fun d => (d.scope, d.name))).Nodup ∧
    resolve_bytes_length_events stClose didC DIDType.DATASET =
      resolve_bytes_length_events_spec stClose didC DIDType.DATASET :=
  ⟨by decide, C3_resolve_matches_spec stClose didC DIDType.DATASET (by decide)⟩

/-- Unfolding bounded iteration from the outside. -/
theorem iterN_succ_apply (f : α → α) : ∀ (n : Nat) (a : α), iterN f (n + 1) a = f (iterN f n a) := by
  intro n
  induction n with
  | zero => intro a; rfl
  | succ m ih =>
    intro a
    have h1 : iterN f (m + 2) a = iterN f (m + 1) (f a) := rfl
    rw [h1, ih (f a)]
    rfl

/-- One parent-walk step is inflationary. -/
theorem ancestorStep_subset (assocs : List AssocRow) (s : Finset SN) :
    s ⊆ ancestorStep assocs s :=
  Finset.subset_union_left

/-- A direct parent of a member joins the next parent-walk stage. -/
theorem mem_ancestorStep_of_parent {assocs : List AssocRow} {s : Finset SN} {c x : SN}
    (hc : c ∈ s) (hx : x ∈ (direct_parents assocs c).toFinset) :
    x ∈ ancestorStep assocs s :=
  Finset.mem_union_right _ (Finset.mem_biUnion.mpr ⟨c, hc, hx⟩)

/-- Direct parents live in the universe of parent keys. -/
theorem direct_parents_subset_universe (assocs : List AssocRow) (k : SN) :
    (direct_parents assocs k).toFinset ⊆ parentsUniverse assocs := by
  intro x hx
  rw [List.mem_toFinset] at hx
  unfold direct_parents assocsOfChild at hx
  rw [List.mem_map] at hx
  obtain ⟨a, ha, hax⟩ := hx
  rw [List.mem_filter] at ha
  unfold parentsUniverse
  rw [List.mem_toFinset, List.mem_map]
  exact ⟨a, ha.1, hax⟩

/-- The parent walk never leaves the universe of parent keys. -/
theorem ancestorStep_subset_universe {assocs : List AssocRow} {s : Finset SN}
    (hs : s ⊆ parentsUniverse assocs) :
    ancestorStep assocs s ⊆ parentsUniverse assocs := by
  unfold ancestorStep
  intro x hx
  rcases Finset.mem_union.mp hx with h | h
  · exact hs h
  · obtain ⟨c, _, hxc⟩ := Finset.mem_biUnion.mp h
    exact direct_parents_subset_universe assocs c hxc

/-- The successor stage of the parent walk. -/
theorem satA_succ (assocs : List AssocRow) (k : SN) (n : Nat) :
    satA assocs k (n + 1) = ancestorStep assocs (satA assocs k n) :=
  iterN_succ_apply _ n _

/-- Every stage lives in the universe of parent keys. -/
theorem satA_subset_universe (assocs : List AssocRow) (k : SN) :
    ∀ n, satA assocs k n ⊆ parentsUniverse assocs := by
  intro n
  induction n with
  | zero => exact direct_parents_subset_universe assocs k
  | succ m ih =>
    rw [satA_succ]
    exact ancestorStep_subset_universe ih

/-- Stages grow. -/
theorem satA_mono_succ (assocs : List AssocRow) (k : SN) (n : Nat) :
    satA assocs k n ⊆ satA assocs k (n + 1) := by
  rw [satA_succ]
  exact ancestorStep_subset _ _

/-- The seed stage is contained in every stage. -/
theorem satA_zero_subset (assocs : List AssocRow) (k : SN) :
    ∀ n, satA assocs k 0 ⊆ satA assocs k n := by
  intro n
  induction n with
  | zero => exact fun x hx => hx
  | succ m ih => exact fun x hx => satA_mono_succ assocs k m (ih hx)

/-- Each stage has either stabilized or collected at least `n` keys. -/
theorem satA_stab_or_card (assocs : List AssocRow) (k : SN) :
    ∀ n, satA assocs k (n + 1) = satA assocs k n ∨ n ≤ (satA assocs k n).card := by
  intro n
  induction n with
  | zero => exact Or.inr (Nat.zero_le _)
  | succ m ih =>
    rcases ih with hstab | hcard
    · left
      rw [satA_succ, satA_succ]
      rw [satA_succ] at hstab
      rw [hstab]
      exact hstab
    · by_cases hs : satA assocs k (m + 1) = satA assocs k m
      · left
        rw [satA_succ, satA_succ]
        rw [satA_succ] at hs
        rw [hs]
        exact hs
      · right
        have hsub : satA assocs k m ⊂ satA assocs k (m + 1) :=
          Finset.ssubset_iff_subset_ne.mpr ⟨satA_mono_succ assocs k m, fun h => hs h.symm⟩
        have := Finset.card_lt_card hsub
        omega

/-- After `assocs.length` steps the parent walk is at its fixpoint. -/
theorem satA_fix (assocs : List AssocRow) (k : SN) :
    ancestorStep assocs (satA assocs k assocs.length) = satA assocs k assocs.length := by
  rcases satA_stab_or_card assocs k assocs.length with hstab | hcard
  · rw [satA_succ] at hstab
    exact hstab
  · have hU : (parentsUniverse assocs).card ≤ assocs.length := by
      have := List.toFinset_card_le (assocs.map (fun a => (a.scope, a.name)))
      rw [List.length_map] at this
      exact this
    have hsub := satA_subset_universe assocs k assocs.length
    have hcard2 : (satA assocs k assocs.length).card ≤ (parentsUniverse assocs).card :=
      Finset.card_le_card hsub
    have heq : satA assocs k assocs.length = parentsUniverse assocs :=
      Finset.eq_of_subset_of_card_le hsub (by omega)
    rw [heq]
    apply Finset.Subset.antisymm
    · exact ancestorStep_subset_universe (fun x hx => hx)
    · exact ancestorStep_subset _ _

/-- An association edge yields a direct parent. -/
theorem edge_mem_direct_parents {assocs : List AssocRow} {x y : SN}
    (h : assocEdge assocs x y) : x ∈ (direct_parents assocs y).toFinset := by
  obtain ⟨a, ha, h1, h2, h3, h4⟩ := h
  rw [List.mem_toFinset]
  unfold direct_parents assocsOfChild
  rw [List.mem_map]
  refine ⟨a, List.mem_filter.mpr ⟨ha, by simp [h3, h4]⟩, by rw [h1, h2]⟩

/-- A direct parent yields an association edge. -/
theorem mem_direct_parents_edge {assocs : List AssocRow} {x y : SN}
    (h : x ∈ (direct_parents assocs y).toFinset) : assocEdge assocs x y := by
  rw [List.mem_toFinset] at h
  unfold direct_parents assocsOfChild at h
  rw [List.mem_map] at h
  obtain ⟨a, ha, hax⟩ := h
  rw [List.mem_filter] at ha
  have hcn : a.child_scope = y.1 ∧ a.child_name = y.2 := by
    have := ha.2
    simpa using this
  exact ⟨a, ha.1, by rw [← hax], by rw [← hax], hcn.1, hcn.2⟩

/-- Completeness of `list_all_parent_dids`: every transitive parent is
found by the recursive walk. -/
theorem mem_listAllParents_of_transGen {assocs : List AssocRow} {a b : SN}
    (h : Relation.TransGen (assocEdge assocs) a b) :
    a ∈ list_all_parent_dids assocs b := by
  have hfix := satA_fix assocs b
  induction h using Relation.TransGen.head_induction_on with
  | base hedge =>
    exact satA_zero_subset assocs b assocs.length (edge_mem_direct_parents hedge)
  | ih hedge htail ihc =>
    rw [show list_all_parent_dids assocs b = satA assocs b assocs.length from rfl] at ihc ⊢
    rw [← hfix]
    exact mem_ancestorStep_of_parent ihc (edge_mem_direct_parents hedge)

/-- Soundness of the stages: every collected key is a transitive parent. -/
theorem transGen_of_mem_satA {assocs : List AssocRow} {b : SN} :
    ∀ {n : Nat} {a : SN}, a ∈ satA assocs b n →
      Relation.TransGen (assocEdge assocs) a b := by
  intro n
  induction n with
  | zero =>
    intro a ha
    exact Relation.TransGen.single (mem_direct_parents_edge ha)
  | succ m ih =>
    intro a ha
    rw [satA_succ] at ha
    rcases Finset.mem_union.mp ha with h | h
    · exact ih h
    · obtain ⟨c, hc, hac⟩ := Finset.mem_biUnion.mp h
      exact Relation.TransGen.head (mem_direct_parents_edge hac) (ih hc)

/-- Soundness of `list_all_parent_dids`. -/
theorem transGen_of_mem_listAllParents {assocs : List AssocRow} {a b : SN}
    (h : a ∈ list_all_parent_dids assocs b) :
    Relation.TransGen (assocEdge assocs) a b :=
  transGen_of_mem_satA h



/-- A path in a graph extended by edges out of a single vertex `p` either
avoids the new edges or passes `p` and then some new child. -/
theorem transGen_union_decompose {E : SN → SN → Prop} {p : SN} {C : SN → Prop} {a b : SN}
    (h : Relation.TransGen (fun x y => E x y ∨ (x = p ∧ C y)) a b) :
    Relation.TransGen E a b ∨
      (Relation.ReflTransGen E a p ∧ ∃ c, C c ∧
        Relation.ReflTransGen (fun x y => E x y ∨ (x = p ∧ C y)) c b) := by
  induction h using Relation.TransGen.head_induction_on with
  | base hedge =>
    rcases hedge with he | ⟨hap, hcb⟩
    · exact Or.inl (Relation.TransGen.single he)
    · subst hap
      exact Or.inr ⟨Relation.ReflTransGen.refl, b, hcb, Relation.ReflTransGen.refl⟩
  | ih hedge htail ihc =>
    rcases hedge with he | ⟨hap, hcc⟩
    · rcases ihc with h1 | ⟨h1, c, hc, h2⟩
      · exact Or.inl (Relation.TransGen.head he h1)
      · exact Or.inr ⟨Relation.ReflTransGen.head he h1, c, hc, h2⟩
    · subst hap
      exact Or.inr ⟨Relation.ReflTransGen.refl, _, hcc, htail.to_reflTransGen⟩

/-- Adding edges from `p` to children that are neither `p` nor transitive
parents of `p` preserves acyclicity. -/
theorem acyclic_union {E : SN → SN → Prop} {p : SN} {C : SN → Prop}
    (hacyc : ∀ x, ¬ Relation.TransGen E x x)
    (hC : ∀ c, C c → c ≠ p ∧ ¬ Relation.TransGen E c p) :
    ∀ x, ¬ Relation.TransGen (fun a b => E a b ∨ (a = p ∧ C b)) x x := by
  intro x hx
  rcases transGen_union_decompose hx with h | ⟨hxp, c, hc, hcx⟩
  · exact hacyc x h
  · have hcp : Relation.ReflTransGen (fun a b => E a b ∨ (a = p ∧ C b)) c p :=
      Relation.ReflTransGen.trans hcx
        (Relation.ReflTransGen.mono (fun a b h => Or.inl h) hxp)
    rcases Relation.reflTransGen_iff_eq_or_transGen.mp hcp with heq | htg
    · exact (hC c hc).1 heq.symm
    · rcases transGen_union_decompose htg with h1 | ⟨h1, c2, hc2, h2⟩
      · exact (hC c hc).2 h1
      · rcases Relation.reflTransGen_iff_eq_or_transGen.mp h1 with heq2 | htg2
        · exact (hC c hc).1 heq2.symm
        · exact (hC c hc).2 htg2



/-- A successful container-attach check loop saw no unmatched child. -/
theorem collCheckLoop_ok_no_none {assocs : List AssocRow} {pk : SN} {ig : Bool} :
    ∀ {rows : List JoinRow} {ct : Option DIDType} {dups : List SN} {out : Option DIDType × List SN},
    collCheckLoop assocs pk ig rows ct dups = .ok out →
    ∀ r ∈ rows, r.did ≠ none := by
  intro rows
  induction rows with
  | nil => intro ct dups out h r hr; simp at hr
  | cons r0 rest ih =>
    intro ct dups out h r hr
    unfold collCheckLoop at h
    cases hd0 : r0.did with
    | none => rw [hd0] at h; simp at h
    | some d0 =>
      rw [hd0] at h
      dsimp only at h
      split_ifs at h with h1 h2 h3 h4
      all_goals
        rcases List.mem_cons.mp hr with h0 | hmem
        · subst h0; rw [hd0]; exact fun hc => by cases hc
        · exact ih h r hmem

/-- A successful container-attach check loop verified that no CONTAINER
child is a transitive parent of the target container. -/
theorem collCheckLoop_ok_no_ancestor {assocs : List AssocRow} {pk : SN} {ig : Bool} :
    ∀ {rows : List JoinRow} {ct : Option DIDType} {dups : List SN} {out : Option DIDType × List SN},
    collCheckLoop assocs pk ig rows ct dups = .ok out →
    ∀ r ∈ rows, ∀ d, r.did = some d → d.did_type = DIDType.CONTAINER →
      (r.file.scope, r.file.name) ∉ list_all_parent_dids assocs pk := by
  intro rows
  induction rows with
  | nil => intro ct dups out h r hr; simp at hr
  | cons r0 rest ih =>
    intro ct dups out h r hr d hd htype
    unfold collCheckLoop at h
    cases hd0 : r0.did with
    | none => rw [hd0] at h; simp at h
    | some d0 =>
      rw [hd0] at h
      dsimp only at h
      split_ifs at h with h1 h2 h3 h4
      all_goals
        rcases List.mem_cons.mp hr with h0 | hmem
        case _ =>
          subst h0
          rw [hd0] at hd
          cases hd
          intro hmemanc
          apply h3
          have hm := not_ne_iff.mp h2
          exact ⟨by rw [hm, htype], hmemanc⟩
        case _ => exact ih h r hmem d hd htype

/-- Every child of the batch owns at least one join row. -/
theorem joinRows_exists_for_child {st : DBState} {children : List FileArg} {dupOf : SN → Bool}
    {c : FileArg} (hc : c ∈ children) :
    ∃ r ∈ joinRows st children dupOf, r.file = c := by
  unfold joinRows
  cases hk : didsWithKey st c.scope c.name with
  | nil =>
    refine ⟨⟨c, none, dupOf (c.scope, c.name)⟩, ?_, rfl⟩
    rw [List.mem_flatMap]
    exact ⟨c, hc, by rw [hk]; simp⟩
  | cons e es =>
    refine ⟨⟨c, some e, dupOf (c.scope, c.name)⟩, ?_, rfl⟩
    rw [List.mem_flatMap]
    refine ⟨c, hc, ?_⟩
    rw [hk]
    simp only [List.mem_map]
    exact ⟨e, List.mem_cons_self e es, rfl⟩

/-- Container-to-container edges of an appended table split. -/
theorem ccEdge_append {A B : List AssocRow} {x y : SN} :
    ccEdge (A ++ B) x y ↔ ccEdge A x y ∨ ccEdge B x y := by
  unfold ccEdge
  constructor
  · rintro ⟨a, ha, hprops⟩
    rcases List.mem_append.mp ha with h | h
    · exact Or.inl ⟨a, h, hprops⟩
    · exact Or.inr ⟨a, h, hprops⟩
  · rintro (⟨a, ha, hprops⟩ | ⟨a, ha, hprops⟩)
    · exact ⟨a, List.mem_append_left B ha, hprops⟩
    · exact ⟨a, List.mem_append_right A ha, hprops⟩



/-- Container-to-container edges are association edges. -/
theorem ccEdge_sub_assocEdge {A : List AssocRow} {x y : SN} (h : ccEdge A x y) :
    assocEdge A x y := by
  obtain ⟨a, ha, _, _, h3, h4, h5, h6⟩ := h
  exact ⟨a, ha, h3, h4, h5, h6⟩

/-- C5: (1) a container attach whose batch names the parent itself fails with
UnsupportedOperation; (2) when the children are containers, a batch naming any
transitive parent of the target container (an ancestor in the Association DAG)
fails with UnsupportedOperation; (3) consequently a successful
`__add_collections_to_container` call never creates a cycle in the
CONTAINER-to-CONTAINER association graph. -/
theorem C5_cycle_protection :
    (∀ (st : DBState) (parent : DidRow) (children : List FileArg) (account : String)
      (ig : Bool) (now : Int),
      (children.map (fun c => (c.scope, c.name))).contains (parent.scope, parent.name) = true →
      add_collections_to_container st parent children account ig now =
        .error .UnsupportedOperation) ∧
    (∀ (st : DBState) (parent : DidRow) (children : List FileArg) (account : String)
      (ig : Bool) (now : Int),
      (∀ c ∈ children, ∃ d ∈ st.dids,
        d.scope = c.scope ∧ d.name = c.name ∧ d.did_type = DIDType.CONTAINER) →
      (∃ c ∈ children, Relation.TransGen (assocEdge st.assocs) (c.scope, c.name)
        (parent.scope, parent.name)) →
      add_collections_to_container st parent children account ig now =
        .error .UnsupportedOperation) ∧
    (∀ (st : DBState) (parent : DidRow) (children : List FileArg) (account : String)
      (ig : Bool) (now : Int) (st2 : DBState),
      add_collections_to_container st parent children account ig now = .ok st2 →
      AcyclicRel (ccEdge st.assocs) → AcyclicRel (ccEdge st2.assocs)) := by
  refine ⟨?_, ?_, ?_⟩
  · intro st parent children account ig now hself
    unfold add_collections_to_container
    rw [if_pos hself]
  · intro st parent children account ig now hex ⟨c, hc, htrans⟩
    unfold add_collections_to_container
    by_cases hself : (children.map (fun c => (c.scope, c.name))).contains
        (parent.scope, parent.name) = true
    · rw [if_pos hself]
    · rw [if_neg hself]
      dsimp only
      set dupOf := fun k => ig && contentExists st.assocs (parent.scope, parent.name) k
      cases hloop : collCheckLoop st.assocs (parent.scope, parent.name) ig
          (joinRows st children dupOf) none [] with
      | error e =>
        rcases collCheckLoop_error_shape hloop with he | ⟨r, hr, hn⟩
        · subst he; rfl
        · exfalso
          obtain ⟨hcf, hempty⟩ := joinRows_none_shape hr hn
          obtain ⟨d, hd, hs, hn2, _⟩ := hex _ hcf
          have : d ∈ didsWithKey st r.file.scope r.file.name :=
            List.mem_filter.mpr ⟨hd, by simp [hs, hn2]⟩
          rw [hempty] at this
          simp at this
      | ok p =>
        exfalso
        obtain ⟨ct0, dups0⟩ := p
        obtain ⟨d, hd, hs, hn2, htype⟩ := hex _ hc
        have hdm : d ∈ didsWithKey st c.scope c.name :=
          List.mem_filter.mpr ⟨hd, by simp [hs, hn2]⟩
        have hrow := @joinRows_mem_of_match st children dupOf c d hc hdm
        have hnoanc := collCheckLoop_ok_no_ancestor hloop _ hrow d rfl htype
        exact hnoanc (mem_listAllParents_of_transGen htrans)
  · intro st parent children account ig now st2 h hacyc
    unfold add_collections_to_container at h
    by_cases hself : (children.map (fun c => (c.scope, c.name))).contains
        (parent.scope, parent.name) = true
    · rw [if_pos hself] at h; simp at h
    · rw [if_neg hself] at h
      dsimp only at h
      set dupOf := fun k => ig && contentExists st.assocs (parent.scope, parent.name) k
      cases hloop : collCheckLoop st.assocs (parent.scope, parent.name) ig
          (joinRows st children dupOf) none [] with
      | error e => rw [hloop] at h; simp at h
      | ok p =>
        obtain ⟨ct0, dups0⟩ := p
        rw [hloop] at h
        dsimp only at h
        cases hct : ct0 with
        | none =>
          rw [hct] at h
          dsimp only at h
          cases h
          exact hacyc
        | some t =>
          rw [hct] at h
          dsimp only at h
          split_ifs at h with hcol
          cases h
          dsimp only
          set accepted := children.filter (fun cc =>
            !(ig && dups0.contains (cc.scope, cc.name))) with hacc
          set newAssocs := accepted.map (fun cc =>
            ({ scope := parent.scope, name := parent.name,
               child_scope := cc.scope, child_name := cc.name,
               did_type := DIDType.CONTAINER, child_type := t,
               bytes := none, adler32 := none, md5 := none, guid := none, events := none,
               rule_evaluation := true, created_at := some now, updated_at := some now } :
               AssocRow)) with hnew
          by_cases ht : t = DIDType.CONTAINER
          · -- container children: the new edges leave the parent only
            have hiff : ∀ x y : SN, ccEdge (st.assocs ++ newAssocs) x y →
                (ccEdge st.assocs x y ∨ (x = (parent.scope, parent.name) ∧
                  y ∈ accepted.map (fun cc => (cc.scope, cc.name)))) := by
              intro x y hxy
              rcases ccEdge_append.mp hxy with hA | hB
              · exact Or.inl hA
              · obtain ⟨a, ha, _, _, h3, h4, h5, h6⟩ := hB
                rw [hnew] at ha
                rw [List.mem_map] at ha
                obtain ⟨cc, hcc, hcca⟩ := ha
                subst hcca
                right
                constructor
                · rw [Prod.ext_iff]
                  exact ⟨h3.symm, h4.symm⟩
                · rw [List.mem_map]
                  refine ⟨cc, hcc, ?_⟩
                  rw [Prod.ext_iff]
                  exact ⟨h5, h6⟩
            have hC : ∀ cy, cy ∈ accepted.map (fun cc => (cc.scope, cc.name)) →
                cy ≠ (parent.scope, parent.name) ∧
                  ¬ Relation.TransGen (ccEdge st.assocs) cy (parent.scope, parent.name) := by
              intro cy hcy
              rw [List.mem_map] at hcy
              obtain ⟨cc, hccacc, hccy⟩ := hcy
              have hccchildren : cc ∈ children := List.mem_of_mem_filter hccacc
              constructor
              · intro heq
                apply hself
                rw [List.contains_iff_exists_mem_beq]
                refine ⟨cy, ?_, by simp [heq]⟩
                rw [List.mem_map]
                exact ⟨cc, hccchildren, hccy⟩
              · intro htg
                obtain ⟨r, hr, hrf⟩ :=
                  @joinRows_exists_for_child st children dupOf cc hccchildren
                cases hrd : r.did with
                | none => exact collCheckLoop_ok_no_none hloop r hr hrd
                | some d =>
                  have hdt : some t = some d.did_type := by
                    rw [← hct]
                    exact collCheckLoop_ok_type hloop r hr d hrd
                  have hdc : d.did_type = DIDType.CONTAINER := by
                    rw [← Option.some.inj hdt]
                    exact ht
                  have hnoanc := collCheckLoop_ok_no_ancestor hloop r hr d hrd hdc
                  apply hnoanc
                  apply mem_listAllParents_of_transGen
                  have hkeq : (r.file.scope, r.file.name) = cy := by rw [hrf, hccy]
                  rw [hkeq]
                  exact Relation.TransGen.mono (fun a b hab => ccEdge_sub_assocEdge hab) htg
            intro x hx
            apply acyclic_union hacyc hC x
            exact Relation.TransGen.mono (fun a b hab => hiff a b hab) hx
          · -- dataset children: no container-to-container edge is added
            have hnone : ∀ x y : SN, ccEdge newAssocs x y → False := by
              intro x y hB
              obtain ⟨a, ha, _, h2, _⟩ := hB
              rw [hnew, List.mem_map] at ha
              obtain ⟨cc, _, hcca⟩ := ha
              apply ht
              rw [← hcca] at h2
              exact h2
            intro x hx
            apply hacyc x
            refine Relation.TransGen.mono ?_ hx
            intro a b hab
            rcases ccEdge_append.mp hab with hA | hB
            · exact hA
            · exact absurd hB (hnone a b)



/-- C5, witness: with `s:CA` already holding `s:CB`, attaching `s:CA` under
`s:CB` is rejected. -/
theorem C5_cycle_protection_witness :
    ((∀ c ∈ [mkArg "s" "CA"], ∃ d ∈ stCycle.dids,
        d.scope = c.scope ∧ d.name = c.name ∧ d.did_type = DIDType.CONTAINER) ∧
      (∃ c ∈ [mkArg "s" "CA"], Relation.TransGen (assocEdge stCycle.assocs)
        (c.scope, c.name) ("s", "CB"))) ∧
    add_collections_to_container stCycle (mkDid "s" "CB" DIDType.CONTAINER)
        [mkArg "s" "CA"] "root" false 50 = .error .UnsupportedOperation :=
  ⟨⟨by decide,
    ⟨mkArg "s" "CA", by decide, Relation.TransGen.single
      ⟨mkAssoc "s" "CA" "s" "CB" DIDType.CONTAINER DIDType.CONTAINER none none,
        by decide, rfl, rfl, rfl, rfl⟩⟩⟩,
    C5_cycle_protection.2.1 stCycle (mkDid "s" "CB" DIDType.CONTAINER) [mkArg "s" "CA"] "root" false 50
      (by decide)
      ⟨mkArg "s" "CA", by decide, Relation.TransGen.single
        ⟨mkAssoc "s" "CA" "s" "CB" DIDType.CONTAINER DIDType.CONTAINER none none,
          by decide, rfl, rfl, rfl, rfl⟩⟩⟩


/-! ## C8 — delete/resurrect round trip -/

/-- The per-DID entry step of `delete_dids` touches only the content-history
and message tables. -/
theorem deleteEntryStep_frame (account : String) (cfg : Config) (now : Int)
    (acc : DBState) (d : DeleteArg) :
    (deleteEntryStep account cfg now acc d).dids = acc.dids ∧
    (deleteEntryStep account cfg now acc d).assocs = acc.assocs ∧
    (deleteEntryStep account cfg now acc d).deleted_dids = acc.deleted_dids ∧
    (deleteEntryStep account cfg now acc d).rules = acc.rules ∧
    (deleteEntryStep account cfg now acc d).did_meta = acc.did_meta ∧
    (deleteEntryStep account cfg now acc d).dids_followed = acc.dids_followed := by
  unfold deleteEntryStep insert_content_history
  split_ifs <;> exact ⟨rfl, rfl, rfl, rfl, rfl, rfl⟩

/-- The entry fold of `delete_dids` touches only the content-history and
message tables. -/
theorem deleteEntryFold_frame (account : String) (cfg : Config) (now : Int) :
    ∀ (l : List DeleteArg) (acc : DBState),
    (l.foldl (deleteEntryStep account cfg now) acc).dids = acc.dids ∧
    (l.foldl (deleteEntryStep account cfg now) acc).assocs = acc.assocs ∧
    (l.foldl (deleteEntryStep account cfg now) acc).deleted_dids = acc.deleted_dids ∧
    (l.foldl (deleteEntryStep account cfg now) acc).rules = acc.rules ∧
    (l.foldl (deleteEntryStep account cfg now) acc).did_meta = acc.did_meta ∧
    (l.foldl (deleteEntryStep account cfg now) acc).dids_followed = acc.dids_followed := by
  intro l
  induction l with
  | nil => intro acc; exact ⟨rfl, rfl, rfl, rfl, rfl, rfl⟩
  | cons x t ih =>
    intro acc
    rw [List.foldl_cons]
    obtain ⟨h1, h2, h3, h4, h5, h6⟩ := ih (deleteEntryStep account cfg now acc x)
    obtain ⟨g1, g2, g3, g4, g5, g6⟩ := deleteEntryStep_frame account cfg now acc x
    exact ⟨h1.trans g1, h2.trans g2, h3.trans g3, h4.trans g4, h5.trans g5, h6.trans g6⟩

/-- Phase D of `delete_dids` touches only the bad-replica table. -/
theorem deleteBadFilesPhase_frame (st : DBState) (fk : List SN) (now : Int) :
    (deleteBadFilesPhase st fk now).dids = st.dids ∧
    (deleteBadFilesPhase st fk now).assocs = st.assocs ∧
    (deleteBadFilesPhase st fk now).deleted_dids = st.deleted_dids ∧
    (deleteBadFilesPhase st fk now).dids_followed = st.dids_followed ∧
    (deleteBadFilesPhase st fk now).assoc_history = st.assoc_history := by
  unfold deleteBadFilesPhase
  split_ifs <;> exact ⟨rfl, rfl, rfl, rfl, rfl⟩

/-- Phase E of `delete_dids` leaves the DID rows and deleted-DID snapshots
unchanged. -/
theorem deleteCollectionContentPhase_frame (st : DBState) (ck : List SN) (cfg : Config)
    (now : Int) :
    (deleteCollectionContentPhase st ck cfg now).dids = st.dids ∧
    (deleteCollectionContentPhase st ck cfg now).deleted_dids = st.deleted_dids ∧
    (deleteCollectionContentPhase st ck cfg now).dids_followed = st.dids_followed ∧
    (deleteCollectionContentPhase st ck cfg now).assoc_history = st.assoc_history := by
  unfold deleteCollectionContentPhase
  split_ifs <;> exact ⟨rfl, rfl, rfl, rfl⟩

/-- Phase B of `delete_dids` is a no-op when no parent edge points at the
inputs, and reports `existing_parent_dids = false`. -/
theorem deleteParentPhase_no_parents {st : DBState} {allKeys : List SN} {now : Int}
    (h : st.assocs.filter (fun a => allKeys.contains (a.child_scope, a.child_name)) = []) :
    deleteParentPhase st allKeys now = .ok (st, false) := by
  unfold deleteParentPhase
  rw [h]
  rfl

/-- Shrinking a filter that already yields a singleton to a stricter predicate
still satisfied by the singleton yields the same singleton. -/
theorem filter_subpred_singleton {α : Type} {l : List α} {p q : α → Bool} {a : α}
    (hq : l.filter q = [a]) (hpa : p a = true)
    (himp : ∀ x, p x = true → q x = true) :
    l.filter p = [a] := by
  induction l with
  | nil => simp at hq
  | cons x t ih =>
    rw [List.filter_cons] at hq ⊢
    by_cases hqx : q x = true
    · rw [if_pos hqx] at hq
      have hxa : x = a := (List.cons_eq_cons.mp hq).1
      have htq : t.filter q = [] := (List.cons_eq_cons.mp hq).2.symm ▸ rfl
      have htp : t.filter p = [] := by
        rw [List.filter_eq_nil_iff]
        intro y hy hpy
        have : y ∈ t.filter q := List.mem_filter.mpr ⟨hy, himp y hpy⟩
        rw [htq] at this
        exact absurd this (List.not_mem_nil y)
      rw [if_pos (hxa ▸ hpa), hxa, htp]
    · rw [if_neg hqx] at hq
      have hpx : ¬(p x = true) := fun hp => hqx (himp x hp)
      rw [if_neg hpx]
      exact ih hq

/-- Phase G on a single collection key with no file inputs and archiving on:
the matching collection rows are snapshotted into the deleted-DIDs table and
removed from the live table. -/
theorem deleteTerminalPhase_archive (st : DBState) (k : SN) (cfg : Config) (now : Int)
    (harch : cfg.archive_dids = true) :
    (deleteTerminalPhase st [k] [] cfg now).deleted_dids =
      st.deleted_dids ++ (st.dids.filter (isCollRow [k])).map (fun x => snapshotOf x now) ∧
    (deleteTerminalPhase st [k] [] cfg now).dids =
      st.dids.filter (fun x => !(isCollRow [k] x)) := by
  unfold deleteTerminalPhase insert_deleted_dids
  simp only [harch, List.isEmpty_cons, List.isEmpty_nil, Bool.false_eq_true, if_false, if_true]
  constructor <;> trivial

/-- Phase G on a state whose DID rows and snapshots agree with a base state
holding exactly one row under the key: the snapshot lands in the deleted-DIDs
table and no live row under the key survives. -/
theorem terminal_single (stE st : DBState) (scope name : String) (cfg : Config)
    (now : Int) (d : DidRow)
    (hEdids : stE.dids = st.dids) (hEdel : stE.deleted_dids = st.deleted_dids)
    (harch : cfg.archive_dids = true)
    (hkey : didsWithKey st scope name = [d])
    (hdty : d.did_type = DIDType.CONTAINER ∨ d.did_type = DIDType.DATASET) :
    (deleteTerminalPhase stE [(scope, name)] [] cfg now).deleted_dids =
      st.deleted_dids ++ [snapshotOf d now] ∧
    (deleteTerminalPhase stE [(scope, name)] [] cfg now).dids.filter
      (fun x => decide (x.scope = scope ∧ x.name = name)) = [] := by
  obtain ⟨h1, h2⟩ := deleteTerminalPhase_archive stE (scope, name) cfg now harch
  have hq : st.dids.filter (fun x => decide (x.scope = scope ∧ x.name = name)) = [d] := hkey
  have hds : d.scope = scope ∧ d.name = name := by
    have := (mem_of_filter_singleton hq).2
    simpa using this
  have hpa : isCollRow [(scope, name)] d = true := by
    unfold isCollRow
    rcases hdty with h | h <;> simp [h, hds.1, hds.2]
  have himp : ∀ x, isCollRow [(scope, name)] x = true →
      (fun (x : DidRow) => decide (x.scope = scope ∧ x.name = name)) x = true := by
    intro x hx
    unfold isCollRow at hx
    have hc := ((Bool.and_eq_true _ _).mp hx).1
    have hp : ((x.scope, x.name) : SN) = (scope, name) := by simpa using hc
    rw [Prod.mk.injEq] at hp
    simp [hp.1, hp.2]
  have hfilter : st.dids.filter (isCollRow [(scope, name)]) = [d] :=
    filter_subpred_singleton hq hpa himp
  constructor
  · rw [h1, hEdel, hEdids, hfilter]
    rfl
  · rw [h2, hEdids, List.filter_eq_nil_iff]
    intro x hx hxq
    obtain ⟨hxmem, hxnot⟩ := List.mem_filter.mp hx
    have hxd : x = d := eq_of_filter_singleton hq x hxmem hxq
    rw [hxd, hpa] at hxnot
    simp at hxnot

/-- `delete_dids` on a single collection DID with no external parent edge and
archiving on succeeds, appends exactly the DID's snapshot to the deleted-DIDs
table, and leaves no live row under the key. -/
theorem delete_single_collection (st : DBState) (scope name : String) (dt : DIDType)
    (account : String) (cfg : Config) (now : Int) (d : DidRow)
    (hdt : dt ≠ DIDType.FILE)
    (harch : cfg.archive_dids = true)
    (hkey : didsWithKey st scope name = [d])
    (hdty : d.did_type = DIDType.CONTAINER ∨ d.did_type = DIDType.DATASET)
    (hnoparent : ∀ a ∈ st.assocs, ¬(a.child_scope = scope ∧ a.child_name = name)) :
    ∃ st1, delete_dids st [⟨scope, name, dt, none, none⟩] account false cfg now = .ok st1 ∧
      st1.deleted_dids = st.deleted_dids ++ [snapshotOf d now] ∧
      st1.dids.filter (fun x => decide (x.scope = scope ∧ x.name = name)) = [] := by
  have hall : ((([⟨scope, name, dt, none, none⟩] : List DeleteArg)).map
      (fun d => (d.scope, d.name))).dedup = [(scope, name)] := by simp
  have hfile : (((([⟨scope, name, dt, none, none⟩] : List DeleteArg)).filter
      (fun d => decide (d.did_type = DIDType.FILE))).map
      (fun d => (d.scope, d.name))).dedup = [] := by simp [hdt]
  have hcoll : (((([⟨scope, name, dt, none, none⟩] : List DeleteArg)).filter
      (fun d => decide (d.did_type ≠ DIDType.FILE))).map
      (fun d => (d.scope, d.name))).dedup = [(scope, name)] := by simp [hdt]
  obtain ⟨hf_dids, hf_assocs, hf_del, hf_rules, hf_meta, hf_fol⟩ :=
    deleteEntryFold_frame account cfg now [⟨scope, name, dt, none, none⟩] st
  have hskip : (deleteRulesPhase
      (List.foldl (deleteEntryStep account cfg now) st [⟨scope, name, dt, none, none⟩])
      [(scope, name)] false cfg).2 = false := rfl
  have hBassocs : (deleteRulesPhase
      (List.foldl (deleteEntryStep account cfg now) st [⟨scope, name, dt, none, none⟩])
      [(scope, name)] false cfg).1.assocs = st.assocs := hf_assocs
  have hedges : (deleteRulesPhase
      (List.foldl (deleteEntryStep account cfg now) st [⟨scope, name, dt, none, none⟩])
      [(scope, name)] false cfg).1.assocs.filter
      (fun a => [((scope : String), name)].contains (a.child_scope, a.child_name)) = [] := by
    rw [hBassocs, List.filter_eq_nil_iff]
    intro a ha hc
    have hpair : (a.child_scope, a.child_name) = (scope, name) := by simpa using hc
    rw [Prod.mk.injEq] at hpair
    exact hnoparent a ha hpair
  have hphB := @deleteParentPhase_no_parents _ _ now hedges
  have hmain : delete_dids st [⟨scope, name, dt, none, none⟩] account false cfg now =
      .ok (deleteTerminalPhase
        (deleteCollectionContentPhase
          (deleteBadFilesPhase
            (deleteMetaPhase
              (deleteRulesPhase
                (List.foldl (deleteEntryStep account cfg now) st
                  [⟨scope, name, dt, none, none⟩])
                [(scope, name)] false cfg).1
              [(scope, name)])
            [] now)
          [(scope, name)] cfg now)
        [(scope, name)] [] cfg now) := by
    unfold delete_dids
    rw [if_neg (by simp)]
    simp only [hall, hfile, hcoll, hskip, Bool.false_eq_true, if_false, hphB]
  have hEdids : (deleteCollectionContentPhase
      (deleteBadFilesPhase
        (deleteMetaPhase
          (deleteRulesPhase
            (List.foldl (deleteEntryStep account cfg now) st
              [⟨scope, name, dt, none, none⟩])
            [(scope, name)] false cfg).1
          [(scope, name)])
        [] now)
      [(scope, name)] cfg now).dids = st.dids := by
    obtain ⟨h1, _, _, _⟩ := deleteCollectionContentPhase_frame
      (deleteBadFilesPhase
        (deleteMetaPhase
          (deleteRulesPhase
            (List.foldl (deleteEntryStep account cfg now) st
              [⟨scope, name, dt, none, none⟩])
            [(scope, name)] false cfg).1
          [(scope, name)])
        [] now)
      [(scope, name)] cfg now
    exact h1.trans hf_dids
  have hEdel : (deleteCollectionContentPhase
      (deleteBadFilesPhase
        (deleteMetaPhase
          (deleteRulesPhase
            (List.foldl (deleteEntryStep account cfg now) st
              [⟨scope, name, dt, none, none⟩])
            [(scope, name)] false cfg).1
          [(scope, name)])
        [] now)
      [(scope, name)] cfg now).deleted_dids = st.deleted_dids := by
    obtain ⟨_, h2, _, _⟩ := deleteCollectionContentPhase_frame
      (deleteBadFilesPhase
        (deleteMetaPhase
          (deleteRulesPhase
            (List.foldl (deleteEntryStep account cfg now) st
              [⟨scope, name, dt, none, none⟩])
            [(scope, name)] false cfg).1
          [(scope, name)])
        [] now)
      [(scope, name)] cfg now
    exact h2.trans hf_del
  obtain ⟨g1, g2⟩ := terminal_single _ st scope name cfg now d hEdids hEdel harch hkey hdty
  exact ⟨_, hmain, g1, g2⟩

/-- `resurrect` on a key with exactly one archived snapshot restores the
snapshot as a new live row and drops it from the deleted-DIDs table. -/
theorem resurrect_single_restore (st : DBState) (scope name : String) (now : Int)
    (dd : DeletedDidRow)
    (hdel : st.deleted_dids.filter
      (fun r => decide (r.scope = scope ∧ r.name = name)) = [dd]) :
    ∃ st2, resurrect st [(scope, name)] now = .ok st2 ∧
      st2.dids = st.dids ++ [restoreDid dd] ∧
      st2.deleted_dids = st.deleted_dids.filter
        (fun r => !(decide (r.scope = scope ∧ r.name = name))) := by
  unfold resurrect resurrectLoop
  simp only
  rw [hdel]
  exact ⟨_, rfl, rfl, rfl⟩


/-- **C8 counterexample.** The claim says the round trip restores the DID row
with the same column values except `expired_at` cleared.  On the concrete
round trip the restored row has lost `access_cnt` (the snapshot table has no
such column), had `deleted_at` stamped and `created_at` reset, so the row
"same except `expired_at`" is not in the catalog after `resurrect`. -/
theorem C8_counterexample :
    ∃ st1 st2,
      delete_dids stRoundTrip [⟨"s", "D", DIDType.DATASET, none, none⟩]
        "root" false cfgArchive 77 = .ok st1 ∧
      resurrect st1 [("s", "D")] 100 = .ok st2 ∧
      didsWithKey st2 "s" "D" = [restoreDid (snapshotOf didD8 77)] ∧
      didD8.access_cnt = some 5 ∧
      (restoreDid (snapshotOf didD8 77)).access_cnt = none ∧
      { didD8 with expired_at := none } ∉ st2.dids := by
  refine ⟨_, _, rfl, rfl, by decide, rfl, rfl, by decide⟩

/-- **C8 (amended).** With `deletion.archive_dids=true`, `delete_dids` on a
single collection DID with no external parents followed by `resurrect` of the
same key restores the DID's live row with the same column values except that
`expired_at` is cleared, `access_cnt` and `created_at` are dropped (the
snapshot never carries `access_cnt`, and the restored row is inserted fresh)
and `deleted_at` carries the archival timestamp; for every resurrect input
with no archived snapshot, a live DID whose `expired_at` lies in the past has
its expiry cleared in place, and if neither a snapshot nor such a live row
exists the call fails with `DataIdentifierNotFound`. -/
theorem C8_archive_roundtrip (st : DBState) (scope name : String) (dt : DIDType)
    (account : String) (cfg : Config) (now now1 : Int) (d : DidRow)
    (hdt : dt ≠ DIDType.FILE) (harch : cfg.archive_dids = true)
    (hkey : didsWithKey st scope name = [d])
    (hdty : d.did_type = DIDType.CONTAINER ∨ d.did_type = DIDType.DATASET)
    (hnoparent : ∀ a ∈ st.assocs, ¬(a.child_scope = scope ∧ a.child_name = name))
    (hnosnap : st.deleted_dids.filter
      (fun r => decide (r.scope = scope ∧ r.name = name)) = []) :
    (∃ st1 st2,
      delete_dids st [⟨scope, name, dt, none, none⟩] account false cfg now = .ok st1 ∧
      resurrect st1 [(scope, name)] now1 = .ok st2 ∧
      st2.dids.filter (fun x => decide (x.scope = scope ∧ x.name = name)) =
        [{ d with
            expired_at := none, access_cnt := none, created_at := none,
            deleted_at := some now }]) ∧
    (∀ (stX : DBState) (s n : String) (tm : Int),
      stX.deleted_dids.filter (fun r => decide (r.scope = s ∧ r.name = n)) = [] →
      (stX.dids.filter (resurrectExpiredPred (s, n) tm)).length ≠ 0 →
      resurrect stX [(s, n)] tm =
        .ok (updateDids stX (resurrectExpiredPred (s, n) tm)
          (fun x => { x with expired_at := none }))) ∧
    (∀ (stX : DBState) (s n : String) (tm : Int),
      stX.deleted_dids.filter (fun r => decide (r.scope = s ∧ r.name = n)) = [] →
      stX.dids.filter (resurrectExpiredPred (s, n) tm) = [] →
      resurrect stX [(s, n)] tm = .error RucioErr.DataIdentifierNotFound) := by
  refine ⟨?_, ?_, ?_⟩
  · obtain ⟨st1, heq, hdel1, hnod⟩ :=
      delete_single_collection st scope name dt account cfg now d hdt harch hkey hdty hnoparent
    have hds : d.scope = scope ∧ d.name = name := by
      have := (mem_of_filter_singleton hkey).2
      simpa using this
    have hfilter1 : st1.deleted_dids.filter
        (fun r => decide (r.scope = scope ∧ r.name = name)) = [snapshotOf d now] := by
      rw [hdel1, List.filter_append, hnosnap, List.nil_append]
      simp [snapshotOf, hds.1, hds.2]
    obtain ⟨st2, hres, hdids2, hdel2⟩ :=
      resurrect_single_restore st1 scope name now1 (snapshotOf d now) hfilter1
    refine ⟨st1, st2, heq, hres, ?_⟩
    have hrd : restoreDid (snapshotOf d now) =
        { d with
            expired_at := none, access_cnt := none, created_at := none,
            deleted_at := some now } := rfl
    rw [hdids2, List.filter_append, hnod, List.nil_append, hrd]
    simp [hds.1, hds.2]
  · intro stX s n tm h0 h1
    unfold resurrect resurrectLoop
    simp only
    rw [h0]
    rw [if_pos h1]
    rfl
  · intro stX s n tm h0 h1
    unfold resurrect resurrectLoop
    simp only
    rw [h0]
    rw [if_neg (by rw [h1]; simp)]
    rfl

/-- **C8 witness.** The amended round trip at the concrete fixture: deleting
archived dataset `s:D` (stored `access_cnt = 5`, `expired_at = 3`) at time 77
and resurrecting at time 100 yields exactly the row of `s:D` with the expiry
cleared, the access count and creation time dropped, and `deleted_at = 77`. -/
theorem C8_archive_roundtrip_witness :
    cfgArchive.archive_dids = true ∧
    (∃ st1 st2,
      delete_dids stRoundTrip [⟨"s", "D", DIDType.DATASET, none, none⟩]
        "root" false cfgArchive 77 = .ok st1 ∧
      resurrect st1 [("s", "D")] 100 = .ok st2 ∧
      st2.dids.filter (fun x => decide (x.scope = "s" ∧ x.name = "D")) =
        [{ didD8 with
            expired_at := none, access_cnt := none, created_at := none,
            deleted_at := some 77 }]) :=
  ⟨rfl, (C8_archive_roundtrip stRoundTrip "s" "D" DIDType.DATASET "root" cfgArchive
    77 100 didD8 (by decide) rfl (by decide) (by decide) (by decide) rfl).1⟩


/-! ## C9 — Updated-DID markers of `attach_dids_to_dids` -/

/-- `scalar_one` answers a single row exactly on singleton result lists. -/
theorem getOne_eq_one {α : Type} {l : List α} {a : α} (h : getOne l = .one a) :
    l = [a] := by
  match l with
  | [] => simp [getOne] at h
  | [x] =>
    simp [getOne] at h
    rw [h]
  | x :: y :: t => simp [getOne] at h

/-- Shape of the markers accumulated by the attach loop: the result extends the
accumulator, and every appended marker is an `ATTACH` marker carrying the key
of one of the remaining attachments' parents. -/
theorem attachLoop_markers (account : String) (ign : Bool) (now : Int) :
    ∀ (atts : List Attachment) (st : DBState) (acc : List UpdatedDidRow)
      (st1 : DBState) (ms : List UpdatedDidRow) (e : Bool),
    attachLoop account ign now st atts acc = .ok (st1, ms, e) →
    ∃ new, ms = acc ++ new ∧
      ∀ m ∈ new, m.rule_evaluation_action = ReEvaluation.ATTACH ∧
        ∃ att ∈ atts, att.scope = m.scope ∧ att.name = m.name := by
  intro atts
  induction atts with
  | nil =>
    intro st acc st1 ms e h
    unfold attachLoop at h
    injection h with h
    injection h with h1 h2
    injection h2 with h2 h3
    refine ⟨[], by rw [← h2]; simp, by simp⟩
  | cons att rest ih =>
    intro st acc st1 ms e h
    unfold attachLoop at h
    cases hg : getOne (didsWithKey st att.scope att.name) with
    | noResult => rw [hg] at h; exact absurd h (by simp)
    | many => rw [hg] at h; exact absurd h (by simp)
    | one parent =>
      rw [hg] at h
      have hpk : parent.scope = att.scope ∧ parent.name = att.name := by
        have hl := getOne_eq_one hg
        simpa using (mem_of_filter_singleton hl).2
      simp only at h
      by_cases h1 : parent.did_type = DIDType.FILE
      · rw [if_pos h1] at h
        by_cases h2 : isArchiveName att.name = true
        · rw [if_pos h2] at h
          cases hm : add_files_to_archive st parent (pyDict att.dids) account ign now with
          | error e0 => rw [hm] at h; exact absurd h (by simp)
          | ok stA =>
            rw [hm] at h
            simp only at h
            injection h with h
            injection h with ha hb
            injection hb with hb hc
            refine ⟨[], by rw [← hb]; simp, by simp⟩
        · rw [if_neg h2] at h
          exact absurd h (by simp)
      · rw [if_neg h1] at h
        by_cases h3 : (!parent.is_open) = true
        · rw [if_pos h3] at h
          exact absurd h (by simp)
        · rw [if_neg h3] at h
          by_cases h4 : parent.did_type = DIDType.DATASET
          · rw [if_pos h4] at h
            cases hm : add_files_to_dataset st parent (pyDict att.dids) account att.rse_id ign now with
            | error e0 => rw [hm] at h; exact absurd h (by simp)
            | ok pr =>
              rw [hm] at h
              simp only at h
              by_cases hcont : pr.2.length > 0
              · rw [if_pos hcont] at h
                obtain ⟨new, hnew, hprop⟩ := ih pr.1
                  (acc ++ [⟨parent.scope, parent.name, ReEvaluation.ATTACH⟩]) st1 ms e h
                refine ⟨⟨parent.scope, parent.name, ReEvaluation.ATTACH⟩ :: new, ?_, ?_⟩
                · rw [hnew]; simp
                · intro m hm0
                  rcases List.mem_cons.mp hm0 with hm1 | hm1
                  · subst hm1
                    exact ⟨rfl, att, List.mem_cons_self _ _, hpk.1.symm, hpk.2.symm⟩
                  · obtain ⟨hA, att', hatt', hs, hn⟩ := hprop m hm1
                    exact ⟨hA, att', List.mem_cons_of_mem _ hatt', hs, hn⟩
              · rw [if_neg hcont] at h
                obtain ⟨new, hnew, hprop⟩ := ih pr.1 acc st1 ms e h
                refine ⟨new, hnew, ?_⟩
                intro m hm0
                obtain ⟨hA, att', hatt', hs, hn⟩ := hprop m hm0
                exact ⟨hA, att', List.mem_cons_of_mem _ hatt', hs, hn⟩
          · rw [if_neg h4] at h
            cases hm : add_collections_to_container st parent (pyDict att.dids) account ign now with
            | error e0 => rw [hm] at h; exact absurd h (by simp)
            | ok stA =>
              rw [hm] at h
              simp only at h
              obtain ⟨new, hnew, hprop⟩ := ih stA
                (acc ++ [⟨parent.scope, parent.name, ReEvaluation.ATTACH⟩]) st1 ms e h
              refine ⟨⟨parent.scope, parent.name, ReEvaluation.ATTACH⟩ :: new, ?_, ?_⟩
              · rw [hnew]; simp
              · intro m hm0
                rcases List.mem_cons.mp hm0 with hm1 | hm1
                · subst hm1
                  exact ⟨rfl, att, List.mem_cons_self _ _, hpk.1.symm, hpk.2.symm⟩
                · obtain ⟨hA, att', hatt', hs, hn⟩ := hprop m hm1
                  exact ⟨hA, att', List.mem_cons_of_mem _ hatt', hs, hn⟩

/-- **C9 counterexample.** On the fixture batch — the dataset attachment
`s:D ← s:f1` (which changes the relation: the new association row is present
afterwards) followed by the FILE-archive attachment `s:x.zip ← s:g` — the call
succeeds but inserts NO Updated-DID marker at all: the archive branch returns
from inside the loop before the marker insertion.  The same dataset attachment
alone yields its `{s, D, ATTACH}` marker, so the claim's "regardless of the
position or type of the other attachments" fails. -/
theorem C9_counterexample :
    (∃ st', attach_dids_to_dids stBatch attBatch "root" false 50 = .ok st' ∧
      st'.updated_dids = [] ∧
      (∃ a ∈ st'.assocs, a.scope = "s" ∧ a.name = "D" ∧
        a.child_scope = "s" ∧ a.child_name = "f1")) ∧
    (∃ st'', attach_dids_to_dids stBatch [attDS] "root" false 50 = .ok st'' ∧
      st''.updated_dids = [⟨"s", "D", ReEvaluation.ATTACH⟩]) := by
  constructor
  · exact ⟨stBatchFull, by rfl, by rfl, by decide⟩
  · exact ⟨stDSOnly, by rfl, by rfl⟩

/-- **C9 (amended).** Markers are inserted only when the attach loop runs to
completion: in that case the call appends exactly the deduplicated marker list
accumulated by the loop — duplicate-free, each marker an `ATTACH` marker of a
batch parent, and one per recorded relation change — to `updated_dids`.  When
the loop hits a FILE-archive parent it returns early and the call inserts no
markers at all, dropping those already recorded for earlier parents of the
batch. -/
theorem C9_markers_batch (st : DBState) (atts : List Attachment) (account : String)
    (ign : Bool) (now : Int) (st1 : DBState) (ms : List UpdatedDidRow) :
    (attachLoop account ign now st atts [] = .ok (st1, ms, false) →
      attach_dids_to_dids st atts account ign now =
        .ok { st1 with updated_dids := st1.updated_dids ++ ms.dedup } ∧
      ms.dedup.Nodup ∧
      (∀ m, m ∈ ms.dedup ↔ m ∈ ms) ∧
      ∀ m ∈ ms, m.rule_evaluation_action = ReEvaluation.ATTACH ∧
        ∃ att ∈ atts, att.scope = m.scope ∧ att.name = m.name) ∧
    (attachLoop account ign now st atts [] = .ok (st1, ms, true) →
      attach_dids_to_dids st atts account ign now = .ok st1) := by
  constructor
  · intro h
    refine ⟨?_, List.nodup_dedup ms, fun m => List.mem_dedup, ?_⟩
    · unfold attach_dids_to_dids
      rw [h]
      rfl
    · obtain ⟨new, hnew, hprop⟩ := attachLoop_markers account ign now atts st [] st1 ms false h
      rw [hnew, List.nil_append]
      exact hprop
  · intro h
    unfold attach_dids_to_dids
    rw [h]
    rfl

/-- **C9 witness.** The dataset attachment alone: the loop completes with the
single `{s, D, ATTACH}` marker, and the call appends its deduplication to
`updated_dids`. -/
theorem C9_markers_batch_witness :
    attachLoop "root" false 50 stBatch [attDS] [] =
      .ok (stBatchAfter, [⟨"s", "D", ReEvaluation.ATTACH⟩], false) ∧
    attach_dids_to_dids stBatch [attDS] "root" false 50 =
      .ok { stBatchAfter with updated_dids := stBatchAfter.updated_dids ++
        ([⟨"s", "D", ReEvaluation.ATTACH⟩] : List UpdatedDidRow).dedup } :=
  ⟨rfl, ((C9_markers_batch stBatch [attDS] "root" false 50 stBatchAfter
    [⟨"s", "D", ReEvaluation.ATTACH⟩]).1 rfl).1⟩


/-! ## C7 — deletion deferred by an external parent -/


/-- The aggregate update of `detach_dids` never touches the parent row's key,
creation time or type. -/
theorem detachUpdateDid_key (did : DidRow) (a : AssocRow) :
    (detachUpdateDid did a).scope = did.scope ∧ (detachUpdateDid did a).name = did.name ∧
    (detachUpdateDid did a).created_at = did.created_at ∧
    (detachUpdateDid did a).did_type = did.did_type := by
  by_cases h1 : truthyI did.length = true <;>
    by_cases h2 : (truthyI did.bytes && truthyI a.bytes) = true <;>
      by_cases h3 : (truthyI did.events && truthyI a.events) = true <;>
        simp [detachUpdateDid, h1, h2, h3]

/-- Erasing the single row a filter selects empties that filter, when the
erasure predicate is satisfied by that row and entails the filter. -/
theorem eraseP_filter_singleton {α : Type} {l : List α} {p q : α → Bool} {a : α}
    (hq : l.filter q = [a]) (hpa : p a = true)
    (himp : ∀ x, p x = true → q x = true) :
    (l.eraseP p).filter q = [] := by
  induction l with
  | nil => simp
  | cons x t ih =>
    rw [List.filter_cons] at hq
    by_cases hqx : q x = true
    · rw [if_pos hqx] at hq
      have hxa : x = a := (List.cons_eq_cons.mp hq).1
      have htq : t.filter q = [] := (List.cons_eq_cons.mp hq).2.symm ▸ rfl
      rw [List.eraseP_cons, hxa, hpa]
      simpa using htq
    · rw [if_neg hqx] at hq
      have hpx : p x = false := by
        cases hx : p x with
        | false => rfl
        | true => exact absurd (himp x hx) hqx
      rw [List.eraseP_cons, hpx]
      simp only [cond_false, List.filter_cons, hqx]
      simpa using ih hq

/-- A row-wise update that fixes the selected rows and never moves a row into
the selection commutes out of the filter. -/
theorem filter_map_invariant {q : DidRow → Bool} {f : DidRow → DidRow} :
    ∀ (l : List DidRow),
    (∀ x ∈ l, (q x = true → f x = x) ∧ (q x = false → q (f x) = false)) →
    (l.map f).filter q = l.filter q := by
  intro l
  induction l with
  | nil => intro h; rfl
  | cons x t ih =>
    intro h
    rw [List.map_cons, List.filter_cons, List.filter_cons]
    obtain ⟨h1, h2⟩ := h x (List.mem_cons_self x t)
    have ht := ih (fun y hy => h y (List.mem_cons_of_mem x hy))
    cases hqx : q x with
    | true =>
      rw [h1 hqx, hqx]
      simpa using ht
    | false =>
      simp only [h2 hqx, hqx]
      simpa using ht



/-- Phase E on a single collection key deletes exactly the content rows whose
parent is that key. -/
theorem deleteCollectionContentPhase_assocs (st : DBState) (k : SN) (cfg : Config)
    (now : Int) :
    (deleteCollectionContentPhase st [k] cfg now).assocs =
      st.assocs.filter (fun a => !([k].contains (a.scope, a.name))) := by
  unfold deleteCollectionContentPhase
  rw [if_neg (by simp)]
  split_ifs <;> rfl

/-- `detach_dids` on a collection parent with a unique matching child edge:
the edge is erased, its history row is appended, the parent row takes the
aggregate decrement, and no other table changes. -/
theorem detach_single (st : DBState) (ps pn cs cn : String) (now : Int)
    (a : AssocRow) (p : DidRow)
    (hparent : st.dids.filter (detachParentPred ps pn) = [p])
    (hnself : ¬(ps = cs ∧ pn = cn))
    (hfilt : (assocsOfParent st.assocs ps pn).filter
      (fun x => decide (x.child_scope = cs ∧ x.child_name = cn)) = [a]) :
    ∃ st', detach_dids st ps pn [(cs, cn)] now = .ok st' ∧
      st'.dids = st.dids.map (fun r =>
        if detachParentPred ps pn r then detachUpdateDid p a else r) ∧
      st'.assocs = st.assocs.eraseP (fun x => decide (x.scope = ps ∧ x.name = pn ∧
        x.child_scope = cs ∧ x.child_name = cn)) ∧
      st'.assoc_history = st.assoc_history ++ [historyOf a p.created_at now] ∧
      st'.deleted_dids = st.deleted_dids ∧ st'.rules = st.rules ∧
      st'.did_meta = st.did_meta ∧ st'.dids_followed = st.dids_followed := by
  have hne : ¬((assocsOfParent st.assocs ps pn).isEmpty = true) := by
    have hmem : a ∈ assocsOfParent st.assocs ps pn :=
      (mem_of_filter_singleton hfilt).1
    rw [List.isEmpty_iff]
    exact List.ne_nil_of_mem hmem
  unfold detach_dids
  rw [hparent]
  have hg1 : getOne [p] = OneResult.one p := rfl
  rw [hg1]
  simp only
  rw [if_neg hne]
  unfold detachChildrenLoop
  simp only
  rw [if_neg hnself]
  rw [hfilt]
  simp only
  unfold detachChildrenLoop
  exact ⟨_, rfl, rfl, rfl, rfl, rfl, rfl, rfl, rfl⟩







/-- Strengthening a filter whose first hit is the only one surviving the
extra conjunct collapses it to that hit. -/
theorem filter_and_singleton {α : Type} {l : List α} {q p : α → Bool} {a : α} {rest : List α}
    (hq : l.filter q = a :: rest) (hpa : p a = true)
    (hrest : ∀ x ∈ rest, p x = false) :
    l.filter (fun x => q x && p x) = [a] := by
  induction l with
  | nil => simp at hq
  | cons y t ih =>
    rw [List.filter_cons] at hq
    rw [List.filter_cons]
    by_cases hqy : q y = true
    · rw [if_pos hqy] at hq
      have hya : y = a := (List.cons_eq_cons.mp hq).1
      have htq : t.filter q = rest := (List.cons_eq_cons.mp hq).2
      have hcy : (q y && p y) = true := by rw [hqy, hya, hpa]; rfl
      rw [if_pos hcy, hya]
      have htc : t.filter (fun x => q x && p x) = [] := by
        rw [List.filter_eq_nil_iff]
        intro x hx hcx
        have hqx := ((Bool.and_eq_true _ _).mp hcx).1
        have hpx := ((Bool.and_eq_true _ _).mp hcx).2
        have : x ∈ t.filter q := List.mem_filter.mpr ⟨hx, hqx⟩
        rw [htq] at this
        rw [hrest x this] at hpx
        exact absurd hpx (by simp)
      rw [htc]
    · rw [if_neg hqy] at hq
      have hcy : ¬((q y && p y) = true) := by
        intro hc
        exact hqy ((Bool.and_eq_true _ _).mp hc).1
      rw [if_neg hcy]
      exact ih hq

/-- Erasing the first row a filter selects drops exactly that head from the
filter, when the erasure predicate holds at the head, entails the filter, and
fails on the tail. -/
theorem eraseP_filter_cons {α : Type} {l : List α} {p q : α → Bool} {a : α} {rest : List α}
    (hq : l.filter q = a :: rest) (hpa : p a = true)
    (himp : ∀ x, p x = true → q x = true)
    (hrest : ∀ x ∈ rest, p x = false) :
    (l.eraseP p).filter q = rest := by
  induction l with
  | nil => simp at hq
  | cons y t ih =>
    rw [List.filter_cons] at hq
    by_cases hqy : q y = true
    · rw [if_pos hqy] at hq
      have hya : y = a := (List.cons_eq_cons.mp hq).1
      have htq : t.filter q = rest := (List.cons_eq_cons.mp hq).2
      rw [List.eraseP_cons, hya, hpa]
      simpa using htq
    · rw [if_neg hqy] at hq
      have hpy : p y = false := by
        cases hp : p y with
        | false => rfl
        | true => exact absurd (himp y hp) hqy
      rw [List.eraseP_cons, hpy]
      simp only [cond_false, List.filter_cons]
      rw [if_neg hqy]
      exact ih hq

/-- Phase E only removes content rows, never adds any. -/
theorem deleteCollectionContentPhase_assocs_mem {st : DBState} {ck : List SN}
    {cfg : Config} {now : Int} {x : AssocRow}
    (hx : x ∈ (deleteCollectionContentPhase st ck cfg now).assocs) : x ∈ st.assocs := by
  unfold deleteCollectionContentPhase at hx
  split_ifs at hx
  · exact hx
  · exact (List.mem_filter.mp hx).1
  · exact (List.mem_filter.mp hx).1



/-- Phases C, D and E of `delete_dids` keep the DID rows and the association
history, and remove association rows at most. -/
theorem phaseCDE_keeps (stB : DBState) (ak FK CK : List SN) (cfg : Config) (now : Int) :
    (deleteCollectionContentPhase (deleteBadFilesPhase (deleteMetaPhase stB ak) FK now)
      CK cfg now).dids = stB.dids ∧
    (deleteCollectionContentPhase (deleteBadFilesPhase (deleteMetaPhase stB ak) FK now)
      CK cfg now).assoc_history = stB.assoc_history ∧
    ∀ q : AssocRow → Bool, stB.assocs.filter q = [] →
      (deleteCollectionContentPhase (deleteBadFilesPhase (deleteMetaPhase stB ak) FK now)
        CK cfg now).assocs.filter q = [] := by
  obtain ⟨hE1, _, _, hE4⟩ := deleteCollectionContentPhase_frame
    (deleteBadFilesPhase (deleteMetaPhase stB ak) FK now) CK cfg now
  obtain ⟨hD1, hD2, _, _, hD5⟩ := deleteBadFilesPhase_frame (deleteMetaPhase stB ak) FK now
  refine ⟨hE1.trans hD1, hE4.trans hD5, ?_⟩
  intro q hq
  rw [List.filter_eq_nil_iff]
  intro x hx hqx
  have hx1 : x ∈ (deleteBadFilesPhase (deleteMetaPhase stB ak) FK now).assocs :=
    deleteCollectionContentPhase_assocs_mem hx
  rw [hD2] at hx1
  have : x ∈ stB.assocs.filter q := List.mem_filter.mpr ⟨hx1, hqx⟩
  rw [hq] at this
  exact absurd this (List.not_mem_nil x)



/-- The Phase B loop of `delete_dids`, run on all the parent edges of one
child key: under the catalog invariants — no self edge, one association row
per (parent, child) pair (distinct parent keys for a fixed child), a unique
collection row per parent key — every edge is detached, an association history
row is written per removed edge, and the DID rows are neither removed nor
changed at the child key. -/
theorem detachParentsLoop_all (scope name : String) (now : Int) :
    ∀ (edges : List AssocRow) (st0 : DBState),
    (∀ a ∈ edges, ¬(a.scope = scope ∧ a.name = name)) →
    (∀ a ∈ edges, a.child_scope = scope ∧ a.child_name = name) →
    ((edges.map (fun a => (a.scope, a.name))).Nodup) →
    (∀ a ∈ edges, ∃ p, st0.dids.filter (detachParentPred a.scope a.name) = [p]) →
    (st0.assocs.filter
      (fun x => decide (x.child_scope = scope ∧ x.child_name = name)) = edges) →
    ∃ st', detachParentsLoop now st0 edges = .ok st' ∧
      st'.assocs.filter
        (fun x => decide (x.child_scope = scope ∧ x.child_name = name)) = [] ∧
      (∃ ext, st'.assoc_history = st0.assoc_history ++ ext) ∧
      (∀ a ∈ edges, ∃ c, historyOf a c now ∈ st'.assoc_history) ∧
      st'.dids.filter (fun x => decide (x.scope = scope ∧ x.name = name)) =
        st0.dids.filter (fun x => decide (x.scope = scope ∧ x.name = name)) ∧
      st'.dids.length = st0.dids.length := by
  intro edges
  induction edges with
  | nil =>
    intro st0 h1 h2 h3 h4 h5
    exact ⟨st0, rfl, h5, ⟨[], by simp⟩, by simp, rfl, rfl⟩
  | cons a rest ih =>
    intro st0 h1 h2 h3 h4 h5
    obtain ⟨p, hp⟩ := h4 a (List.mem_cons_self a rest)
    have hpk : p.scope = a.scope ∧ p.name = a.name := by
      have := (mem_of_filter_singleton hp).2
      unfold detachParentPred at this
      have h6 := of_decide_eq_true this
      exact ⟨h6.1, h6.2.1⟩
    have hanotin : (a.scope, a.name) ∉ rest.map (fun x => (x.scope, x.name)) :=
      (List.nodup_cons.mp h3).1
    have hrestkey : ∀ x ∈ rest, ¬(x.scope = a.scope ∧ x.name = a.name) := by
      intro x hx hcon
      exact hanotin (by
        rw [← hcon.1, ← hcon.2]
        exact List.mem_map_of_mem (fun y => (y.scope, y.name)) hx)
    have hfilt_a : (assocsOfParent st0.assocs a.scope a.name).filter
        (fun x => decide (x.child_scope = scope ∧ x.child_name = name)) = [a] := by
      unfold assocsOfParent
      rw [List.filter_filter]
      refine filter_and_singleton h5 ?_ ?_
      · simp
      · intro x hx
        have := hrestkey x hx
        simpa using this
    obtain ⟨st1, heq, hdids1, hassocs1, hhist1, _, _, _, _⟩ :=
      detach_single st0 a.scope a.name scope name now a p hp
        (h1 a (List.mem_cons_self a rest)) hfilt_a
    have hstep : detachParentsLoop now st0 (a :: rest) = detachParentsLoop now st1 rest := by
      simp only [detachParentsLoop]
      rw [(h2 a (List.mem_cons_self a rest)).1, (h2 a (List.mem_cons_self a rest)).2, heq]
    have h4' : ∀ b ∈ rest, ∃ pb, st1.dids.filter (detachParentPred b.scope b.name) = [pb] := by
      intro b hb
      obtain ⟨pb, hpb⟩ := h4 b (List.mem_cons_of_mem a hb)
      refine ⟨pb, ?_⟩
      rw [hdids1]
      have hbkey : ¬(b.scope = a.scope ∧ b.name = a.name) := hrestkey b hb
      refine (filter_map_invariant st0.dids ?_).trans hpb
      intro x hx
      constructor
      · intro hqx
        unfold detachParentPred at hqx
        have h6 := of_decide_eq_true hqx
        have hpax : detachParentPred a.scope a.name x = false := by
          cases hpax0 : detachParentPred a.scope a.name x with
          | false => rfl
          | true =>
            unfold detachParentPred at hpax0
            have h7 := of_decide_eq_true hpax0
            exact absurd ⟨h6.1.symm.trans h7.1, h6.2.1.symm.trans h7.2.1⟩ hbkey
        simp [hpax]
      · intro hqx
        by_cases hpax : detachParentPred a.scope a.name x = true
        · simp only [hpax, if_true]
          unfold detachParentPred
          apply decide_eq_false
          intro hcon
          have hk := detachUpdateDid_key p a
          exact hbkey ⟨((hk.1.trans hpk.1).symm.trans hcon.1).symm,
            ((hk.2.1.trans hpk.2).symm.trans hcon.2.1).symm⟩
        · have hpax' : detachParentPred a.scope a.name x = false := by
            cases hpax0 : detachParentPred a.scope a.name x with
            | false => rfl
            | true => exact absurd hpax0 hpax
          simp [hpax', hqx]
    have h5' : st1.assocs.filter
        (fun x => decide (x.child_scope = scope ∧ x.child_name = name)) = rest := by
      rw [hassocs1]
      refine eraseP_filter_cons h5 ?_ ?_ ?_
      · have hc := h2 a (List.mem_cons_self a rest)
        simp [hc.1, hc.2]
      · intro x hx
        have h6 := of_decide_eq_true hx
        exact decide_eq_true ⟨h6.2.2.1, h6.2.2.2⟩
      · intro x hx
        apply decide_eq_false
        intro hcon
        exact hrestkey x hx ⟨hcon.1, hcon.2.1⟩
    obtain ⟨st', hloopr, hfassocs, ⟨ext, hext⟩, hhistr, hdidsr, hlenr⟩ :=
      ih st1
        (fun b hb => h1 b (List.mem_cons_of_mem a hb))
        (fun b hb => h2 b (List.mem_cons_of_mem a hb))
        (List.nodup_cons.mp h3).2
        h4' h5'
    refine ⟨st', hstep.trans hloopr, hfassocs, ?_, ?_, ?_, ?_⟩
    · refine ⟨[historyOf a p.created_at now] ++ ext, ?_⟩
      rw [hext, hhist1, List.append_assoc]
    · intro b hb
      rcases List.mem_cons.mp hb with hb1 | hb1
    
      · refine ⟨p.created_at, ?_⟩
        rw [hext, hhist1, hb1]
        exact List.mem_append_left _ (List.mem_append_right _ (List.mem_singleton.mpr rfl))
      · exact hhistr b hb1
    · rw [hdidsr, hdids1]
      refine filter_map_invariant st0.dids ?_
      intro x hx
      have haself : ¬(a.scope = scope ∧ a.name = name) := h1 a (List.mem_cons_self a rest)
      constructor
      · intro hqx
        have h6 := of_decide_eq_true hqx
        have hpax : detachParentPred a.scope a.name x = false := by
          cases hpax0 : detachParentPred a.scope a.name x with
          | false => rfl
          | true =>
            unfold detachParentPred at hpax0
            have h7 := of_decide_eq_true hpax0
            exact absurd ⟨h7.1.symm.trans h6.1, h7.2.1.symm.trans h6.2⟩ haself
        simp [hpax]
      · intro hqx
        by_cases hpax : detachParentPred a.scope a.name x = true
        · simp only [hpax, if_true]
          apply decide_eq_false
          intro hcon
          have hk := detachUpdateDid_key p a
          exact haself ⟨(hk.1.trans hpk.1).symm.trans hcon.1,
            (hk.2.1.trans hpk.2).symm.trans hcon.2⟩
        · have hpax' : detachParentPred a.scope a.name x = false := by
            cases hpax0 : detachParentPred a.scope a.name x with
            | false => rfl
            | true => exact absurd hpax0 hpax
          simp [hpax', hqx]
    · rw [hlenr, hdids1, List.length_map]



/-- **C7.** `delete_dids` (with `expire_rules=false`, so no soft rule expiry
applies) on a DID still attached under one or more external parents detaches
the DID from every such parent and returns early through Phase F: after the
call no association row with the DID as child remains, an association history
row is present for each removed edge, the live rows under the DID's key are
exactly as before the call, and no DID row is removed at all.  The
hypotheses are the catalog invariants: the parent-edge list is whatever the
association table holds for the child key, with distinct parent keys (the
table's primary key), no self edge (self-append always fails), and a unique
collection row per parent key (the DID table's primary key). -/
theorem C7_delete_with_parents (st : DBState) (scope name : String) (dt : DIDType)
    (account : String) (cfg : Config) (now : Int) (edges : List AssocRow)
    (hne : edges ≠ [])
    (hedges : st.assocs.filter
      (fun x => decide (x.child_scope = scope ∧ x.child_name = name)) = edges)
    (hself : ∀ a ∈ edges, ¬(a.scope = scope ∧ a.name = name))
    (hdistinct : (edges.map (fun a => (a.scope, a.name))).Nodup)
    (hparents : ∀ a ∈ edges, ∃ p, st.dids.filter (detachParentPred a.scope a.name) = [p]) :
    ∃ st1, delete_dids st [⟨scope, name, dt, none, none⟩] account false cfg now = .ok st1 ∧
      st1.assocs.filter
        (fun x => decide (x.child_scope = scope ∧ x.child_name = name)) = [] ∧
      (∀ a ∈ edges, ∃ c, historyOf a c now ∈ st1.assoc_history) ∧
      st1.dids.filter (fun x => decide (x.scope = scope ∧ x.name = name)) =
        st.dids.filter (fun x => decide (x.scope = scope ∧ x.name = name)) ∧
      st1.dids.length = st.dids.length := by
  have hall : ((([⟨scope, name, dt, none, none⟩] : List DeleteArg)).map
      (fun d => (d.scope, d.name))).dedup = [(scope, name)] := by simp
  obtain ⟨hf_dids, hf_assocs, hf_del, hf_rules, hf_meta, hf_fol⟩ :=
    deleteEntryFold_frame account cfg now [⟨scope, name, dt, none, none⟩] st
  have hskip : (deleteRulesPhase
      (List.foldl (deleteEntryStep account cfg now) st [⟨scope, name, dt, none, none⟩])
      [(scope, name)] false cfg).2 = false := rfl
  have hpdids : (deleteRulesPhase
      (List.foldl (deleteEntryStep account cfg now) st [⟨scope, name, dt, none, none⟩])
      [(scope, name)] false cfg).1.dids = st.dids := hf_dids
  have hpassocs : (deleteRulesPhase
      (List.foldl (deleteEntryStep account cfg now) st [⟨scope, name, dt, none, none⟩])
      [(scope, name)] false cfg).1.assocs = st.assocs := hf_assocs
  have h2 : ∀ a ∈ edges, a.child_scope = scope ∧ a.child_name = name := by
    intro a ha
    rw [← hedges] at ha
    simpa using (List.mem_filter.mp ha).2
  have hparents' : ∀ a ∈ edges, ∃ p, (deleteRulesPhase
      (List.foldl (deleteEntryStep account cfg now) st [⟨scope, name, dt, none, none⟩])
      [(scope, name)] false cfg).1.dids.filter (detachParentPred a.scope a.name) = [p] := by
    intro a ha
    rw [hpdids]
    exact hparents a ha
  have hedges' : (deleteRulesPhase
      (List.foldl (deleteEntryStep account cfg now) st [⟨scope, name, dt, none, none⟩])
      [(scope, name)] false cfg).1.assocs.filter
      (fun x => decide (x.child_scope = scope ∧ x.child_name = name)) = edges := by
    rw [hpassocs]
    exact hedges
  obtain ⟨st', hloop, hfassoc, ⟨ext, hext⟩, hhist, hdids, hlen⟩ :=
    detachParentsLoop_all scope name now edges _ hself h2 hdistinct hparents' hedges'
  have hpe : (deleteRulesPhase
      (List.foldl (deleteEntryStep account cfg now) st [⟨scope, name, dt, none, none⟩])
      [(scope, name)] false cfg).1.assocs.filter
      (fun x => [((scope : String), name)].contains (x.child_scope, x.child_name)) = edges := by
    rw [hpassocs]
    rw [List.filter_congr ?_]
    · exact hedges
    · intro x hx
      by_cases h : x.child_scope = scope ∧ x.child_name = name
      · simp [h.1, h.2]
      · have hq1 : decide (x.child_scope = scope ∧ x.child_name = name) = false := by
          simpa using h
        have hq2 : ([((scope : String), name)].contains (x.child_scope, x.child_name)) = false := by
          simp only [List.contains_cons, List.contains_nil, Bool.or_false, beq_eq_false_iff_ne]
          intro hp
          exact h ⟨congrArg Prod.fst hp, congrArg Prod.snd hp⟩
        rw [hq1, hq2]
  have hIsE : edges.isEmpty = false := by
    cases edges with
    | nil => exact absurd rfl hne
    | cons x xs => rfl
  have hphB : deleteParentPhase (deleteRulesPhase
      (List.foldl (deleteEntryStep account cfg now) st [⟨scope, name, dt, none, none⟩])
      [(scope, name)] false cfg).1 [(scope, name)] now = .ok (st', true) := by
    unfold deleteParentPhase
    rw [hpe]
    simp only
    rw [hloop]
    simp only
    rw [hIsE]
    rfl
  obtain ⟨FK, CK, hmain⟩ : ∃ FK CK,
      delete_dids st [⟨scope, name, dt, none, none⟩] account false cfg now =
        .ok (deleteCollectionContentPhase
          (deleteBadFilesPhase (deleteMetaPhase st' [(scope, name)]) FK now) CK cfg now) := by
    by_cases hdtF : dt = DIDType.FILE
    · refine ⟨[(scope, name)], [], ?_⟩
      have hfileF : (((([⟨scope, name, dt, none, none⟩] : List DeleteArg)).filter
          (fun d => decide (d.did_type = DIDType.FILE))).map
          (fun d => (d.scope, d.name))).dedup = [(scope, name)] := by simp [hdtF]
      have hcollF : (((([⟨scope, name, dt, none, none⟩] : List DeleteArg)).filter
          (fun d => decide (d.did_type ≠ DIDType.FILE))).map
          (fun d => (d.scope, d.name))).dedup = [] := by simp [hdtF]
      unfold delete_dids
      rw [if_neg (by simp)]
      simp only [hall, hfileF, hcollF, hskip, Bool.false_eq_true, if_false, hphB, if_true]
    · refine ⟨[], [(scope, name)], ?_⟩
      have hfileF : (((([⟨scope, name, dt, none, none⟩] : List DeleteArg)).filter
          (fun d => decide (d.did_type = DIDType.FILE))).map
          (fun d => (d.scope, d.name))).dedup = [] := by simp [hdtF]
      have hcollF : (((([⟨scope, name, dt, none, none⟩] : List DeleteArg)).filter
          (fun d => decide (d.did_type ≠ DIDType.FILE))).map
          (fun d => (d.scope, d.name))).dedup = [(scope, name)] := by simp [hdtF]
      unfold delete_dids
      rw [if_neg (by simp)]
      simp only [hall, hfileF, hcollF, hskip, Bool.false_eq_true, if_false, hphB, if_true]
  obtain ⟨hk1, hk2, hk3⟩ := phaseCDE_keeps st' [(scope, name)] FK CK cfg now
  refine ⟨_, hmain, ?_, ?_, ?_, ?_⟩
  · exact hk3 _ hfassoc
  · intro a ha
    obtain ⟨c, hc⟩ := hhist a ha
    refine ⟨c, ?_⟩
    rw [hk2]
    exact hc
  · rw [hk1, hdids, hpdids]
  · rw [hk1, hlen, hpdids]



/-- **C7 witness.** Deleting dataset `s:D` while it is attached under the two
containers `s:C` and `s:C2`: both edges are gone, a history row (stamped at
77) is present per edge, and the dataset row survives unchanged. -/
theorem C7_delete_with_parents_witness :
    (stParented2.assocs.filter
      (fun x => decide (x.child_scope = "s" ∧ x.child_name = "D")) =
      [mkAssoc "s" "C" "s" "D" DIDType.CONTAINER DIDType.DATASET (some 30) (some 3),
       mkAssoc "s" "C2" "s" "D" DIDType.CONTAINER DIDType.DATASET none none]) ∧
    ∃ st1, delete_dids stParented2 [⟨"s", "D", DIDType.DATASET, none, none⟩]
        "root" false cfg0 77 = .ok st1 ∧
      st1.assocs.filter
        (fun x => decide (x.child_scope = "s" ∧ x.child_name = "D")) = [] ∧
      (∀ a ∈ [mkAssoc "s" "C" "s" "D" DIDType.CONTAINER DIDType.DATASET (some 30) (some 3),
          mkAssoc "s" "C2" "s" "D" DIDType.CONTAINER DIDType.DATASET none none],
        ∃ c, historyOf a c 77 ∈ st1.assoc_history) ∧
      st1.dids.filter (fun x => decide (x.scope = "s" ∧ x.name = "D")) =
        stParented2.dids.filter (fun x => decide (x.scope = "s" ∧ x.name = "D")) ∧
      st1.dids.length = stParented2.dids.length :=
  ⟨by decide, C7_delete_with_parents stParented2 "s" "D" DIDType.DATASET "root" cfg0 77
    [mkAssoc "s" "C" "s" "D" DIDType.CONTAINER DIDType.DATASET (some 30) (some 3),
     mkAssoc "s" "C2" "s" "D" DIDType.CONTAINER DIDType.DATASET none none]
    (by decide) (by decide) (by decide) (by decide)
    (by
      intro a ha
      rcases List.mem_cons.mp ha with h | h
      · exact ⟨didC, by rw [h]; decide⟩
      · rcases List.mem_cons.mp h with h2 | h2
        · exact ⟨didC2, by rw [h2]; decide⟩
        · exact absurd h2 (List.not_mem_nil a))⟩



end Rucio





